import Mathlib

/-!
# Verification of the DXF Drawing Normalization Engine

Shallow embedding of `app/services/dxf_processor.py` (class `DXFProcessorService`)
together with the data it manipulates.  The in-memory drawing document (ezdxf's
document object as the code uses it) is modelled by explicit structures:

* `VEnt` — a dependent sub-entity (an INSERT's ATTRIB, or a legacy POLYLINE's
  VERTEX): it carries its own style fields and, for vertices, coordinates.
  Coordinates are rationals so that the revision-cloud tolerance check
  (`abs (x0 - xn) < 1e-4`) is exact.
* `Entity` — a layout/block entity: DXF type tag, layer reference, the block
  name it references when it is an INSERT, the three style-override fields
  (`color`, `lineweight`, `linetype`), the optional `true_color` RGB override,
  the closed flag and vertex list for polyline-family entities, and the
  attached ATTRIB list for INSERTs.
* `Layer`, `Block`, `Document` — the layer table (name, color, lineweight,
  linetype), a block definition (name plus owned entities), and the document:
  layer table, modelspace entity list (`msp`), the entities of all other
  (paper-space) layouts (`psp`), block definitions, and the two resource
  tables (linetype names, text styles as name × font pairs).

Python mutation is modelled by explicit state passing: every processor method
takes and returns the structures it mutates.  DXF table lookups (layers,
linetypes, styles) are case-insensitive, as in ezdxf; block-graph bookkeeping
in `_get_deletion_order` uses exact string keys, as the Python `dict` does.
Exceptions swallowed by the Python `try/except` sites are modelled by the
corresponding no-op/skip behaviour; the one unhandled exception of the
module is modelled by `Except`: the processor imports `ezdxf.revcloud`
(ezdxf ≥ 1.1), where `LWPolyline.vertices()` is a method but a legacy
POLYLINE's `vertices` is a list attribute, so `entity.vertices()` on a
POLYLINE raises `TypeError` — caught and skipped inside `apply_revcloud`,
uncaught (aborting the run) inside `force_all_bylayer`.
-/

/-- A dependent sub-entity: an INSERT's attached ATTRIB or a legacy POLYLINE's
VERTEX.  Carries independent style fields; `x`/`y` are the coordinates that
`vertices()` exposes for closure checks. -/
structure VEnt where
  x : ℚ
  y : ℚ
  color : Int
  lineweight : Int
  linetype : String
  true_color : Option Nat
  deriving Repr, DecidableEq

/-- A drawing entity as the processor sees it: DXF type tag, layer reference,
referenced block name (INSERTs), style overrides, optional RGB override,
closed flag and vertex list (polyline family), attached ATTRIBs (INSERTs). -/
structure Entity where
  dxftype : String
  layer : String
  name : String
  color : Int
  lineweight : Int
  linetype : String
  true_color : Option Nat
  is_closed : Bool
  verts : List VEnt
  attribs : List VEnt
  deriving Repr, DecidableEq

/-- A layer-table record: name plus the layer-level defaults entities inherit. -/
structure Layer where
  name : String
  color : Int
  lineweight : Int
  linetype : String
  deriving Repr, DecidableEq

/-- A block definition: a reusable named group of entities. -/
structure Block where
  name : String
  entities : List Entity
  deriving Repr, DecidableEq

/-- The in-memory drawing document. `msp` is the modelspace (primary layout),
`psp` gathers the entities of the remaining (paper-space) layouts, `blocks`
the block definitions, `linetypes`/`styles` the resource tables. -/
structure Document where
  layers : List Layer
  msp : List Entity
  psp : List Entity
  blocks : List Block
  linetypes : List String
  styles : List (String × String)
  deriving Repr, DecidableEq

/-- A layer-remapping rule, `app/services/layer_mapper.py`'s `LayerRule`. -/
structure LayerRule where
  layer_origem : String
  layer_destino : String
  cor : Int
  tipo_linha : String
  espessura_linha : Int
  deriving Repr, DecidableEq

/-- The fields of `ProcessingOptions` (`app/models/schemas.py`) that
`process_dxf` reads. -/
structure ProcessingOptions where
  manter_nuvem_revisao : Bool
  layer_nuvem_origem : String
  manter_hachuras : Bool
  layer_hachura_origem : String
  deriving Repr, DecidableEq

/-- Model of `str.upper()`, character by character (kernel-computable equivalent of
`String.toUpper`). -/
def strUpper (s : String) : String := ⟨s.data.map Char.toUpper⟩

/-- Model of `str.strip()`: drop whitespace from both ends. -/
def strTrim (s : String) : String :=
  ⟨((s.data.dropWhile Char.isWhitespace).reverse.dropWhile Char.isWhitespace).reverse⟩

/-- Model of `str.startswith(pre)`. -/
def strStarts (s pre : String) : Bool := pre.data.isPrefixOf s.data

/-- Case-insensitive name equality, as ezdxf's resource tables compare names. -/
def upperEq (a b : String) : Bool := strUpper a == strUpper b

/-- Case-insensitive membership in a name table. -/
def ciMemStr (n : String) (l : List String) : Bool := l.any (fun m => upperEq m n)

/-- The test `e.dxftype() == "INSERT"`. -/
def isInsert (e : Entity) : Bool := e.dxftype == "INSERT"

/-- Lookup `doc.blocks.get(name)`: block lookup by exact name (first match). -/
def findBlock (blocks : List Block) (n : String) : Option Block :=
  blocks.find? (fun b => b.name == n)

/-- All entities `doc.chain_layouts_and_blocks()` yields: every layout's
entities followed by every block definition's entities. -/
def allEntities (doc : Document) : List Entity :=
  doc.msp ++ doc.psp ++ (doc.blocks.map (·.entities)).flatten

/-! ## Block Flattening Engine (`explode_drawing`, lines 124-140)

`entity.explode()` succeeds exactly when the referenced block definition
exists, replacing the INSERT with copies of the definition's entities
(placement transforms are opaque to the processor); on a dangling reference
it raises, the exception is swallowed, and — because the INSERT `is_alive` —
the code then deletes the INSERT from the layout.  New entities are appended
to the layout; the pass iterates over the snapshot `msp.query('INSERT')`. -/

/-- Entities a successful `explode()` adds for one INSERT: copies of the
referenced definition's entities (nothing on a dangling reference). -/
def explodeInsert (blocks : List Block) (e : Entity) : List Entity :=
  match findBlock blocks e.name with
  | some b => b.entities
  | none => []

/-- One flattening pass over the INSERT snapshot: non-INSERT entities stay in
place; every INSERT is consumed (exploded in place of a successful
`explode()`, or deleted via `msp.delete_entity` after a failed one); the
replacement entities are appended.  Also returns `exploded_count`. -/
def explodePass (blocks : List Block) (msp : List Entity) : List Entity × Nat :=
  let inserts := msp.filter isInsert
  let remaining := msp.filter (fun e => !(isInsert e))
  ((remaining ++ (inserts.map (explodeInsert blocks)).flatten),
   inserts.countP (fun e => (findBlock blocks e.name).isSome))

/-- The `while iteration < 20` loop of `explode_drawing`, with the remaining
iteration budget as fuel; also counts the passes performed. -/
def explodeDrawingAux (blocks : List Block) : Nat → List Entity → Nat → List Entity × Nat
  | 0, msp, passes => (msp, passes)
  | fuel+1, msp, passes =>
    if (msp.filter isInsert).isEmpty then (msp, passes)
    else
      let r := explodePass blocks msp
      if r.2 == 0 then (r.1, passes + 1)
      else explodeDrawingAux blocks fuel r.1 (passes + 1)

/-- The run of `explode_drawing(msp)` together with the number of passes it performed. -/
def explode_drawing_full (blocks : List Block) (msp : List Entity) : List Entity × Nat :=
  explodeDrawingAux blocks 20 msp 0

/-- The result of `explode_drawing(msp)`: the flattened modelspace. -/
def explode_drawing (blocks : List Block) (msp : List Entity) : List Entity :=
  (explode_drawing_full blocks msp).1

/-! ## Block Purge Engine (`purge_blocks` / `_get_removable_blocks` /
`_get_deletion_order`, lines 142-182)

`_get_deletion_order` builds a `dict` keyed by the removable block names
(edge A→B iff definition A contains an INSERT of B and B is itself a key),
then runs a recursive depth-first search with a visitation map
(1 = in progress, 2 = done), raising on a back edge; the final order is the
reversed post-order.  The recursion is modelled with explicit fuel; running
out of fuel is treated like the raised exception (in Python the analogue is
`RecursionError`, also caught by the bare `except` in `purge_blocks`), and
the fuel `graph.length + 1` is proved sufficient for acyclic graphs.
`doc.blocks.delete_block` is ezdxf's safe deletion: it refuses (raises, and
`purge_blocks` skips) when some INSERT anywhere in the document still
references the definition. -/

/-- The exclusion test of `_get_removable_blocks`: every block name except the model-space and
paper-space containers (case-insensitive prefix test). -/
def reservedSpaceName (n : String) : Bool :=
  strStarts (strUpper n) "*MODEL_SPACE" || strStarts (strUpper n) "*PAPER_SPACE"

/-- The list `_get_removable_blocks(doc)`. -/
def removableBlocks (doc : Document) : List String :=
  (doc.blocks.map (·.name)).filter (fun n => !(reservedSpaceName n))

/-- The neighbour set `graph[block]`: referenced removable block names found
in the definition, deduplicated (Python `set.add`). -/
def blockNbrs (doc : Document) (removable : List String) (b : String) : List String :=
  match findBlock doc.blocks b with
  | none => []
  | some bd =>
    bd.entities.foldl (fun acc e =>
      if isInsert e && removable.contains e.name && !(acc.contains e.name)
      then acc ++ [e.name] else acc) []

/-- The reference graph over removable definitions (`graph` in
`_get_deletion_order`). -/
def buildGraph (doc : Document) (removable : List String) : List (String × List String) :=
  removable.map (fun b => (b, blockNbrs doc removable b))

/-- Neighbour lookup in the built graph (exact names, like the Python dict). -/
def nbrsOf (graph : List (String × List String)) (n : String) : List String :=
  match graph.find? (fun p => p.1 == n) with
  | some p => p.2
  | none => []

/-- The DFS state: the visitation map (`1` in progress, `2` done) and the
post-order accumulated so far. -/
structure DfsState where
  visited : String → Option Nat
  order : List String

/-- The `for ... : dfs(...)` loops of `_get_deletion_order` (both the
neighbour loop inside `dfs` and the top-level loop over the graph's keys),
parametrized by the recursive visit: stop at the first error, otherwise
thread the state left to right. -/
def dfsListGo (next : String → DfsState → Except Unit DfsState) :
    List String → DfsState → Except Unit DfsState
  | [], st => Except.ok st
  | n :: rest, st =>
    match next n st with
    | Except.error e => Except.error e
    | Except.ok st2 => dfsListGo next rest st2

/-- The recursive `dfs(node)` of `_get_deletion_order`: error on a back edge (cycle) or on
fuel exhaustion; otherwise mark the node in progress, recurse into its
neighbours, mark it done and append it to the post-order. -/
def dfsVisit (graph : List (String × List String)) :
    Nat → String → DfsState → Except Unit DfsState
  | 0, _, _ => Except.error ()
  | fuel+1, node, st =>
    match st.visited node with
    | some 1 => Except.error ()
    | some _ => Except.ok st
    | none =>
      match dfsListGo (dfsVisit graph fuel) (nbrsOf graph node)
          ⟨fun m => if m = node then some 1 else st.visited m, st.order⟩ with
      | Except.error e => Except.error e
      | Except.ok st2 =>
        Except.ok ⟨fun m => if m = node then some 2 else st2.visited m, st2.order ++ [node]⟩

/-- The order `_get_deletion_order(doc, removable)`: reversed DFS post-order, or an
error when a cycle is detected (or the recursion blows up). -/
def getDeletionOrder (doc : Document) (removable : List String) :
    Except Unit (List String) :=
  let graph := buildGraph doc removable
  match dfsListGo (dfsVisit graph (graph.length + 1)) (graph.map Prod.fst)
      ⟨fun _ => none, []⟩ with
  | Except.error _ => Except.error ()
  | Except.ok st => Except.ok st.order.reverse

def fallbackInsert (x : String) : List String → List String
  | [] => [x]
  | y :: ys => if y.length ≤ x.length then x :: y :: ys else y :: fallbackInsert x ys

/-- The fallback `sorted(removable, key=len, reverse=True)`: stable
insertion sort by descending name length. -/
def fallbackOrder : List String → List String
  | [] => []
  | x :: xs => fallbackInsert x (fallbackOrder xs)

/-- The deletion order `purge_blocks` iterates: the dependency-aware order,
or the crude fallback when the computation raised. -/
def purgeOrder (doc : Document) : List String :=
  match getDeletionOrder doc (removableBlocks doc) with
  | Except.ok o => o
  | Except.error _ => fallbackOrder (removableBlocks doc)

/-- Is the named definition still referenced by an INSERT anywhere in the
document (any layout, any block definition)?  ezdxf's safe
`delete_block` refuses exactly then. -/
def blockReferenced (doc : Document) (n : String) : Bool :=
  (allEntities doc).any (fun e => isInsert e && e.name == n)

/-- Deletion `doc.blocks.delete_block(name)` with the failure swallowed: a no-op when
the definition is still referenced, otherwise the definition is removed. -/
def deleteBlock (doc : Document) (n : String) : Document :=
  if blockReferenced doc n then doc
  else { doc with blocks := doc.blocks.filter (fun b => !(b.name == n)) }

/-- The purge pass `purge_blocks(doc)`. -/
def purge_blocks (doc : Document) : Document :=
  (purgeOrder doc).foldl deleteBlock doc

/-! ## Layer Rule Engine and utilities (lines 73-118, 188-200) -/

/-- The Python truthiness-plus-sentinel test
`linetype and linetype.strip().upper() not in ['NONE', '', 'NAN']`. -/
def linetypeGiven (lt : String) : Bool :=
  lt != "" && !(["NONE", "", "NAN"].contains (strUpper (strTrim lt)))

/-- In-place update of the first layer-table record matching `p`
(`doc.layers.get(name)` returns the first case-insensitive match, and the
attribute assignments mutate that record). -/
def updateFirstLayer (p : Layer → Bool) (f : Layer → Layer) : List Layer → List Layer
  | [] => []
  | L :: rest => if p L then f L :: rest else L :: updateFirstLayer p f rest

/-- The method `ensure_layer_properties(doc, name, color, lineweight, linetype)`:
create the layer when absent (`layers.add(name, color)` creates it with
table defaults: lineweight −3, linetype "Continuous"), then set its color
and lineweight, and — unless the rule's linetype is a none/empty/NaN
sentinel — its linetype, falling back to "Continuous" when the requested
linetype is not in the document's table. -/
def ensure_layer_properties (doc : Document) (name : String) (color : Int)
    (lineweight : Int) (linetype : String) : Document :=
  let doc :=
    if doc.layers.any (fun L => upperEq L.name name) then doc
    else { doc with layers := doc.layers ++ [⟨name, color, -3, "Continuous"⟩] }
  let setProps : Layer → Layer := fun L =>
    let L := { L with color := color, lineweight := lineweight }
    if linetypeGiven linetype then
      if ciMemStr linetype doc.linetypes then { L with linetype := linetype }
      else if ciMemStr "Continuous" doc.linetypes then { L with linetype := "Continuous" }
      else L
    else L
  { doc with layers := updateFirstLayer (fun L => upperEq L.name name) setProps doc.layers }

/-- The method `change_layer_entities(msp, old, new)`: re-home every modelspace entity
whose layer equals `old` (exact match, `msp.query('*[layer=="old"]')`). -/
def change_layer_entities (msp : List Entity) (old new : String) : List Entity :=
  msp.map (fun e => if e.layer == old then { e with layer := new } else e)

/-- The reclaimer `remove_unused_layers(doc)`: keep exactly the layers referenced by some
entity in any layout or block definition, plus the reserved `"0"` and
`"Defpoints"`. -/
def remove_unused_layers (doc : Document) : Document :=
  let used := (allEntities doc).map (·.layer) ++ ["0", "Defpoints"]
  { doc with layers := doc.layers.filter (fun L => used.contains L.name) }

/-! ## Style Normalizer (`force_all_bylayer` / `_set_bylayer`, lines 100-118)

The normalizer iterates `doc.chain_layouts_and_blocks()`: for each entity it
clears the entity's own overrides, then those of its ATTRIBs when it is an
INSERT (`entity.attribs`, a list attribute, read correctly).  For a legacy
POLYLINE line 109 runs `for vertex in entity.vertices()` — but
`Polyline.vertices` is a list attribute in the ezdxf release the module
imports, so the call raises `TypeError`; `force_all_bylayer` has no handler
around the loop, so the exception aborts the normalizer (and its caller).
The traversal therefore returns `Except`: `Except.error ()` as soon as a
legacy POLYLINE is chained, the normalized document otherwise. -/

/-- The effect of `_set_bylayer` on a dependent sub-entity (ATTRIB). -/
def setBylayerSub (v : VEnt) : VEnt :=
  { v with color := 256, lineweight := -1, linetype := "BYLAYER", true_color := none }

/-- The effect of `_set_bylayer(entity)` plus the INSERT-attrib loop of
`force_all_bylayer`: clear the entity's own overrides, and those of its
ATTRIBs when it is an INSERT.  (The POLYLINE-vertex loop of line 109 never
completes — see `setBylayerList`.) -/
def setBylayerEnt (e : Entity) : Entity :=
  { e with
    color := 256
    lineweight := -1
    linetype := "BYLAYER"
    true_color := none
    attribs := (if e.dxftype == "INSERT" then e.attribs.map setBylayerSub else e.attribs) }

/-- The normalizer's loop over a list of chained entities: each entity is
normalized in turn; on a legacy POLYLINE the vertex loop's `entity.vertices()`
call raises `TypeError` out of the whole traversal. -/
def setBylayerList : List Entity → Except Unit (List Entity)
  | [] => Except.ok []
  | e :: rest =>
    if e.dxftype == "POLYLINE" then Except.error ()
    else
      match setBylayerList rest with
      | Except.error u => Except.error u
      | Except.ok r => Except.ok (setBylayerEnt e :: r)

/-- The chained traversal continued through the block definitions. -/
def setBylayerBlocks : List Block → Except Unit (List Block)
  | [] => Except.ok []
  | b :: rest =>
    match setBylayerList b.entities with
    | Except.error u => Except.error u
    | Except.ok es =>
      match setBylayerBlocks rest with
      | Except.error u => Except.error u
      | Except.ok bs => Except.ok ({ b with entities := es } :: bs)

/-- The normalizer `force_all_bylayer(doc)`: normalize every entity of every
layout and every block definition; the uncaught `TypeError` of the POLYLINE
vertex loop aborts the traversal. -/
def force_all_bylayer (doc : Document) : Except Unit Document :=
  match setBylayerList doc.msp with
  | Except.error u => Except.error u
  | Except.ok m =>
    match setBylayerList doc.psp with
    | Except.error u => Except.error u
    | Except.ok p =>
      match setBylayerBlocks doc.blocks with
      | Except.error u => Except.error u
      | Except.ok bs => Except.ok { doc with msp := m, psp := p, blocks := bs }

/-- The document a completed `force_all_bylayer` run produces
(`force_all_bylayer_ok` below proves the run completes with this value
exactly when no legacy POLYLINE is chained). -/
def forceAllBylayerOk (doc : Document) : Document :=
  { doc with
    msp := doc.msp.map setBylayerEnt
    psp := doc.psp.map setBylayerEnt
    blocks := doc.blocks.map (fun b => { b with entities := b.entities.map setBylayerEnt }) }

/-! ## Revision-Cloud Converter (`apply_revcloud`, lines 206-269)

The scan iterates a snapshot of the modelspace; matching closed
polyline-family entities are deleted and their vertex sequences recorded;
after the scan one revision cloud per recorded sequence is appended.
Both `entity.vertices()` calls of the scan sit inside per-entity
`try/except` blocks, and both raise `TypeError` for a legacy POLYLINE
(whose `vertices` is a list attribute): the geometric-closure check (line
231) then leaves `is_closed` False, and the vertex collection (line 247)
raises before the record and the delete, printing `ERRO` and leaving the
entity in place — so only LWPOLYLINEs are ever converted.
`ezdxf.revcloud.add_entity` is external to the repository: it synthesizes a
closed scalloped LWPOLYLINE through the recorded points with fresh (by-layer)
graphic attributes; its arc geometry is outside the processor (a spec
non-goal), so the synthesized entity carries the recorded vertex sequence,
and the processor's own actions on it (layer, color 256) are modelled
exactly. -/

/-- The test `entity.dxftype() in ["LWPOLYLINE", "POLYLINE"]`. -/
def isPolyFamily (e : Entity) : Bool :=
  e.dxftype == "LWPOLYLINE" || e.dxftype == "POLYLINE"

/-- The case-insensitive layer filter of the revision-cloud scan. -/
def onLayerCI (L : String) (e : Entity) : Bool := strUpper e.layer == strUpper L

/-- The comparison `abs (a - b) < 1e-4` on exact rationals, computed on the integer
components (numerator/denominator) so that it evaluates in the kernel;
`closeTol_iff` below proves it equal to the absolute-value form. -/
def closeTol (a b : ℚ) : Bool :=
  (a.num * b.den - b.num * a.den).natAbs * 10000 < a.den * b.den

/-- Whether `list(entity.vertices())` succeeds: `LWPolyline.vertices()` is a
method, but a legacy POLYLINE's `vertices` is a list attribute in the ezdxf
release the module imports, so there the call raises `TypeError` (caught by
the scan's per-entity handlers). -/
def verticesCallOk (e : Entity) : Bool := e.dxftype == "LWPOLYLINE"

/-- The geometric closure test (the scan's first `try`, lines 230-241): the
vertex collection must succeed, and then more than 2 vertices with first and
last within `1e-4` in both x and y; for a legacy POLYLINE the collection
raises, the handler passes, and the flag stays false. -/
def geomClosed (e : Entity) : Bool :=
  if verticesCallOk e then
    match e.verts.head?, e.verts.getLast? with
    | some v0, some vn =>
      decide (2 < e.verts.length) && closeTol v0.x vn.x && closeTol v0.y vn.y
    | _, _ => false
  else false

/-- Is the entity removed and recorded by the scan: on the target layer
(case-insensitive), polyline-family, closed by flag or geometry, and the
vertex collection of the second `try` (line 247) succeeds.  A closed-flagged
legacy POLYLINE reaches that `try`, which raises before the record and the
delete, so the entity is left in place (the `ERRO ao ler vertices` path). -/
def revcloudConverts (L : String) (e : Entity) : Bool :=
  onLayerCI L e && isPolyFamily e && (e.is_closed || geomClosed e) && verticesCallOk e

/-- The scan loop: surviving entities (in order) and the recorded vertex
sequences (in iteration order) of the deleted closed polylines. -/
def revcloudScan (L : String) : List Entity → List Entity × List (List VEnt)
  | [] => ([], [])
  | e :: rest =>
    let r := revcloudScan L rest
    if revcloudConverts L e then (r.1, e.verts :: r.2) else (e :: r.1, r.2)

/-- The entity `ezdxf.revcloud.add_entity(msp, points, segment_length)`
appends, after `apply_revcloud` sets its layer and color: a closed scalloped
LWPOLYLINE through `pts`, by-layer styling (fresh-entity defaults plus the
explicit `color = 256`). -/
def revcloudEntity (L : String) (pts : List VEnt) : Entity :=
  ⟨"LWPOLYLINE", L, "", 256, -1, "ByLayer", none, true, pts, []⟩

/-- The converter `apply_revcloud(msp, source_layer, arc_radius)`. -/
def apply_revcloud (msp : List Entity) (L : String) : List Entity :=
  let r := revcloudScan L msp
  r.1 ++ r.2.map (revcloudEntity L)

/-! ## Stamp Merge Engine (`apply_logos`, lines 275-306) -/

/-- One step of the linetype-copy loop: add the stamp linetype name unless
the target table already has it (name collision ⇒ target wins). -/
def addLinetypeIfMissing (acc : List String) (n : String) : List String :=
  if ciMemStr n acc then acc else acc ++ [n]

/-- One step of the text-style-copy loop: add the stamp style (name, font)
unless the target table already has the name. -/
def addStyleIfMissing (acc : List (String × String)) (s : String × String) :
    List (String × String) :=
  if acc.any (fun t => upperEq t.1 s.1) then acc else acc ++ [s]

/-- The preparation `apply_logos` runs on the stamp document (the endpoint
runs the same two calls once when loading `logos.dxf`):
`explode_drawing(msp_s); purge_blocks(source_doc)`. -/
def stampPrep (s : Document) : Document :=
  purge_blocks { s with msp := explode_drawing s.blocks s.msp }

/-- The merge `apply_logos(target_doc, source_doc)`: flatten/purge the stamp, delete
every IMAGE from the target modelspace, copy missing linetype and style
names, then append a copy of every stamp modelspace entity.  Both resulting
documents are returned (the Python mutates both in place). -/
def apply_logos (target source : Document) : Document × Document :=
  let source := stampPrep source
  let target := { target with msp := target.msp.filter (fun e => !(e.dxftype == "IMAGE")) }
  let target := { target with linetypes := source.linetypes.foldl addLinetypeIfMissing target.linetypes }
  let target := { target with styles := source.styles.foldl addStyleIfMissing target.styles }
  ({ target with msp := target.msp ++ source.msp }, source)

/-! ## The pipeline (`process_dxf`, lines 11-67) -/

/-- Step 4's per-rule body: configure the destination layer, then re-home the
source layer's modelspace entities. -/
def applyRuleStep (d : Document) (kv : String × LayerRule) : Document :=
  let d := ensure_layer_properties d kv.2.layer_destino kv.2.cor kv.2.espessura_linha kv.2.tipo_linha
  { d with msp := change_layer_entities d.msp kv.1 kv.2.layer_destino }

/-- Step 8's target-layer resolution: if the configured cloud layer is a
rule's source, use that rule's destination. -/
def resolveRevLayer (rules : List (String × LayerRule)) (opts : ProcessingOptions) : String :=
  match rules.find? (fun kv => kv.1 == opts.layer_nuvem_origem) with
  | some kv => kv.2.layer_destino
  | none => opts.layer_nuvem_origem

/-- Step 8: revision-cloud conversion of the modelspace when enabled. -/
def revcloudStep (rules : List (String × LayerRule)) (opts : ProcessingOptions)
    (msp : List Entity) : List Entity :=
  if opts.manter_nuvem_revisao then apply_revcloud msp (resolveRevLayer rules opts)
  else msp

/-- Steps 6-8 of the pipeline, run on the outcome of step 5
(`force_all_bylayer`): the `TypeError` a legacy POLYLINE raises there has no
handler in `process_dxf`, so on the error outcome the remaining steps never
run and the stamp document is untouched; on the ok outcome the stamp merge,
the final reclaim and the revision-cloud step proceed. -/
def processAfterForce (rules : List (String × LayerRule)) (opts : ProcessingOptions)
    (logos : Option Document) (forced : Except Unit Document) :
    Except Unit Document × Option Document :=
  match forced with
  | Except.error u => (Except.error u, logos)
  | Except.ok doc =>
    let r := match logos with
      | some s => let ts := apply_logos doc s; (ts.1, some ts.2)
      | none => (doc, (none : Option Document))
    let doc := remove_unused_layers r.1
    (Except.ok { doc with msp := revcloudStep rules opts doc.msp }, r.2)

/-- The pipeline `process_dxf(doc, rules, options, logos_doc)`: the normalized
document — or the propagated `TypeError` of step 5 — as first component, and
the stamp document's state after the run as second component (the Python
mutates `logos_doc` in place through `apply_logos`).  The rule table is an
association list in the Python dict's insertion order. -/
def process_dxf_full (doc : Document) (rules : List (String × LayerRule))
    (opts : ProcessingOptions) (logos : Option Document) :
    Except Unit Document × Option Document :=
  let doc := { doc with msp := explode_drawing doc.blocks doc.msp }
  let doc := purge_blocks doc
  let doc := remove_unused_layers doc
  let current := doc.layers.map (·.name)
  let relevant := rules.filter (fun kv => current.contains kv.1)
  let doc := relevant.foldl applyRuleStep doc
  processAfterForce rules opts logos (force_all_bylayer doc)

/-- The return value of `process_dxf`: the normalized document, or the
exception the style normalizer raises out of the whole call. -/
def process_dxf (doc : Document) (rules : List (String × LayerRule))
    (opts : ProcessingOptions) (logos : Option Document) : Except Unit Document :=
  (process_dxf_full doc rules opts logos).1

/-! ## Specification vocabulary

Predicates used to state the claims (they phrase properties of the model,
they are not part of the embedded code). -/

/-- A nesting-depth measure for the block graph: every INSERT inside a block
definition references a strictly shallower block.  The existence of such a
measure is the claims' "acyclic block-reference graph". -/
def InsertDepthLt (blocks : List Block) (d : String → Nat) : Prop :=
  ∀ b ∈ blocks, ∀ e ∈ b.entities, isInsert e = true → d e.name < d b.name

/-- "Every style override reads as inherit" for a dependent sub-entity. -/
def subBylayer (a : VEnt) : Prop :=
  a.color = 256 ∧ a.lineweight = -1 ∧ a.linetype = "BYLAYER" ∧ a.true_color = none

/-- "Every style override reads as inherit" for an entity, including its
ATTRIBs when it is an INSERT and its vertices when it is a legacy POLYLINE. -/
def entityBylayer (e : Entity) : Prop :=
  e.color = 256 ∧ e.lineweight = -1 ∧ e.linetype = "BYLAYER" ∧ e.true_color = none ∧
  (e.dxftype = "INSERT" → ∀ a ∈ e.attribs, subBylayer a) ∧
  (e.dxftype = "POLYLINE" → ∀ v ∈ e.verts, subBylayer v)

/-- Element `a` occurs strictly before `b` in the list `L`. -/
def precedes (L : List String) (a b : String) : Prop :=
  ∃ l1 l2, L = l1 ++ a :: l2 ∧ b ∈ l2

/-- The first/last-vertex coincidence test of the claims, with the code's
`1e-4` tolerance on both coordinates. -/
def coincideTol (e : Entity) : Prop :=
  match e.verts.head?, e.verts.getLast? with
  | some v0, some vn => |v0.x - vn.x| < 1/10000 ∧ |v0.y - vn.y| < 1/10000
  | _, _ => False

/-- The number of graph keys not yet visited: the DFS fuel measure. -/
def countNone (graph : List (String × List String)) (st : DfsState) : Nat :=
  (graph.map Prod.fst).countP (fun k => (st.visited k).isNone)

/-- The DFS state invariant: the accumulated post-order holds exactly the
done (value 2) nodes, all of them graph keys, without duplicates, the
visitation map only holds 1 or 2, and every node already in the order was
appended after all of its graph neighbours. -/
def DfsInv (graph : List (String × List String)) (st : DfsState) : Prop :=
  (∀ n ∈ st.order, st.visited n = some 2) ∧
  (∀ n, st.visited n = some 2 → n ∈ st.order) ∧
  (∀ n ∈ st.order, n ∈ graph.map Prod.fst) ∧
  st.order.Nodup ∧
  (∀ n v, st.visited n = some v → v = 1 ∨ v = 2) ∧
  (∀ l1 A l2, st.order = l1 ++ A :: l2 → ∀ B ∈ nbrsOf graph A, B ∈ l1)

/-- What a completed DFS call guarantees about the state transition: done
marks persist, the set of in-progress marks is untouched, no mark is
erased, and the post-order is only extended. -/
def VisitOut (st st2 : DfsState) : Prop :=
  (∀ m, st.visited m = some 2 → st2.visited m = some 2) ∧
  (∀ m, st2.visited m = some 1 ↔ st.visited m = some 1) ∧
  (∀ m, st2.visited m = none → st.visited m = none) ∧
  (∃ tail, st2.order = st.order ++ tail)

/-! ## Concrete fixtures (used by witnesses and counterexamples) -/

/-- A plain line entity on layer "A" with style overrides. -/
def FxLineA : Entity := ⟨"LINE", "A", "", 7, 30, "DASHED", some 5, false, [], []⟩

/-- A line entity with no overrides, on layer "0". -/
def FxLine0 : Entity := ⟨"LINE", "0", "", 256, -1, "BYLAYER", none, false, [], []⟩

/-- A circle entity with no overrides, on layer "0". -/
def FxCircle : Entity := ⟨"CIRCLE", "0", "", 256, -1, "BYLAYER", none, false, [], []⟩

/-- An INSERT of the named block, on layer "0". -/
def FxIns (n : String) : Entity := ⟨"INSERT", "0", n, 256, -1, "BYLAYER", none, false, [], []⟩

/-- The claims' scenario document: layers "0" and "A", one line on "A". -/
def FxDocC3 : Document :=
  ⟨[⟨"0", 7, -3, "Continuous"⟩, ⟨"A", 2, 0, "Continuous"⟩], [FxLineA], [], [],
   ["ByBlock", "ByLayer", "Continuous"], [("Standard", "arial.ttf")]⟩

/-- The scenario rule `{"A": dest="B", color=1, lineWeight=25,
lineType="continuous"}`. -/
def FxRuleAB : LayerRule := ⟨"A", "B", 1, "continuous", 25⟩

/-- Options with revision-cloud conversion disabled. -/
def FxOptsOff : ProcessingOptions := ⟨false, "LAYER099", false, "LAYER100"⟩

/-- Options with revision-cloud conversion enabled on layer "LAYER099". -/
def FxOptsOn : ProcessingOptions := ⟨true, "LAYER099", false, "LAYER100"⟩

/-- A vertex at the given coordinates with no overrides. -/
def FxV (a b : ℚ) : VEnt := ⟨a, b, 256, -1, "BYLAYER", none⟩

/-- A closed-by-geometry 4-vertex rectangle outline on layer "Layer099"
(closed flag false, first and last vertex equal). -/
def FxRect : Entity :=
  ⟨"LWPOLYLINE", "Layer099", "", 256, -1, "BYLAYER", none, false,
   [FxV 0 0, FxV 1 0, FxV 1 1, FxV 0 1, FxV 0 0], []⟩

/-- An open 3-vertex polyline on layer "LAYER099". -/
def FxOpenPl : Entity :=
  ⟨"LWPOLYLINE", "LAYER099", "", 256, -1, "BYLAYER", none, false,
   [FxV 0 0, FxV 1 0, FxV 1 1], []⟩

/-- A degenerate 2-vertex LWPOLYLINE on layer "LAYER099" whose two vertices
coincide, closed flag false (it reaches the `len(points) > 2` guard). -/
def FxSeg2 : Entity :=
  ⟨"LWPOLYLINE", "LAYER099", "", 256, -1, "BYLAYER", none, false,
   [FxV 0 0, FxV 0 0], []⟩

/-- A closed-flagged legacy POLYLINE rectangle outline on layer "LAYER099". -/
def FxPolyClosed : Entity :=
  ⟨"POLYLINE", "LAYER099", "", 256, -1, "BYLAYER", none, true,
   [FxV 0 0, FxV 2 0, FxV 2 2, FxV 0 2], []⟩

/-- A chained rule table in dict order `[B→C, A→B]`: the destination of the
second rule is the source of the first. -/
def FxRulesChained : List (String × LayerRule) :=
  [("B", ⟨"B", "C", 3, "continuous", 10⟩), ("A", ⟨"A", "B", 1, "continuous", 25⟩)]

/-- A document with one line on "A" and one on "B" (plus layer "0"). -/
def FxDocC9 : Document :=
  ⟨[⟨"0", 7, -3, "Continuous"⟩, ⟨"A", 1, 0, "Continuous"⟩, ⟨"B", 2, 0, "Continuous"⟩],
   [⟨"LINE", "A", "", 256, -1, "BYLAYER", none, false, [], []⟩,
    ⟨"LINE", "B", "", 256, -1, "BYLAYER", none, false, [], []⟩],
   [], [], ["ByBlock", "ByLayer", "Continuous"], []⟩

/-- A stamp drawing whose block graph is a 3-cycle A→B→C→A, instanced once
in its modelspace. -/
def FxStampCyclic : Document :=
  ⟨[⟨"0", 7, -3, "Continuous"⟩], [FxIns "A"], [],
   [⟨"A", [FxIns "B"]⟩, ⟨"B", [FxIns "C"]⟩, ⟨"C", [FxIns "A"]⟩],
   ["ByBlock", "ByLayer", "Continuous"], []⟩

/-- A trivial already-flattened stamp: one line, no blocks, one linetype and
one style of its own. -/
def FxStampFlat : Document :=
  ⟨[⟨"0", 7, -3, "Continuous"⟩],
   [⟨"LINE", "LOGO", "", 256, -1, "BYLAYER", none, false, [], []⟩], [], [],
   ["ByBlock", "ByLayer", "Continuous", "STAMPLT"], [("Standard", "txt"), ("STAMPST", "txt")]⟩

/-- A merge target containing one raster IMAGE in its modelspace. -/
def FxTargetImg : Document :=
  ⟨[⟨"0", 7, -3, "Continuous"⟩],
   [⟨"IMAGE", "0", "", 256, -1, "BYLAYER", none, false, [], []⟩, FxLine0], [], [],
   ["ByBlock", "ByLayer", "Continuous"], [("Standard", "arial.ttf")]⟩

/-- Two-block document: definition "A" contains an INSERT of "B". -/
def FxDocPurge : Document :=
  ⟨[⟨"0", 7, -3, "Continuous"⟩], [], [],
   [⟨"*Model_Space", []⟩, ⟨"A", [FxIns "B"]⟩, ⟨"B", [FxLine0]⟩], [], []⟩

/-- A depth-2 nesting: modelspace INSERT of "OUTER", which contains an
INSERT of "INNER", which contains a circle. -/
def FxBlocksNested : List Block :=
  [⟨"OUTER", [FxIns "INNER"]⟩, ⟨"INNER", [FxCircle]⟩]

/-- A document with an INSERT (with one ATTRIB) and a legacy POLYLINE (with
one VERTEX), both carrying overrides, for the style-normalizer witness. -/
def FxDocStyles : Document :=
  ⟨[⟨"0", 7, -3, "Continuous"⟩],
   [⟨"INSERT", "0", "TTL", 1, 50, "DASHED", some 99, false, [],
     [⟨0, 0, 2, 35, "DOTTED", some 7⟩]⟩,
    ⟨"POLYLINE", "0", "", 3, 70, "CENTER", none, true,
     [⟨4, 5, 4, 18, "HIDDEN", some 1⟩], []⟩],
   [FxLineA], [⟨"TTL", [FxLineA]⟩],
   ["ByBlock", "ByLayer", "Continuous"], []⟩

/-- A depth measure for `FxBlocksNested`. -/
def FxDepth : String → Nat :=
  fun n => if n = "OUTER" then 2 else if n = "INNER" then 1 else 0

/-- A rank function witnessing that `FxDocPurge`'s block graph is acyclic. -/
def FxRank : String → Nat := fun n => if n = "A" then 1 else 0

/-- The normalized document the C3 scenario run produces. -/
def FxDocC3N : Document :=
  ⟨[⟨"0", 7, -3, "Continuous"⟩, ⟨"B", 1, 25, "continuous"⟩],
   [⟨"LINE", "B", "", 256, -1, "BYLAYER", none, false, [], []⟩],
   [], [], ["ByBlock", "ByLayer", "Continuous"], [("Standard", "arial.ttf")]⟩

/-- The document the first run on `FxDocC9` with the chained table produces. -/
def FxDocC9N1 : Document :=
  ⟨[⟨"0", 7, -3, "Continuous"⟩, ⟨"B", 1, 25, "continuous"⟩, ⟨"C", 3, 10, "continuous"⟩],
   [⟨"LINE", "B", "", 256, -1, "BYLAYER", none, false, [], []⟩,
    ⟨"LINE", "C", "", 256, -1, "BYLAYER", none, false, [], []⟩],
   [], [], ["ByBlock", "ByLayer", "Continuous"], []⟩

/-- The document the second run (on `FxDocC9N1`) produces: the "B" line has
moved to "C". -/
def FxDocC9N2 : Document :=
  ⟨[⟨"0", 7, -3, "Continuous"⟩, ⟨"C", 3, 10, "continuous"⟩],
   [⟨"LINE", "C", "", 256, -1, "BYLAYER", none, false, [], []⟩,
    ⟨"LINE", "C", "", 256, -1, "BYLAYER", none, false, [], []⟩],
   [], [], ["ByBlock", "ByLayer", "Continuous"], []⟩

/-! ## Theorems -/

theorem explodeAux_passes_le (blocks : List Block) :
    ∀ fuel msp p, (explodeDrawingAux blocks fuel msp p).2 ≤ p + fuel := by
  intro fuel
  induction fuel with
  | zero => intro msp p; simp [explodeDrawingAux]
  | succ f ih =>
    intro msp p
    by_cases h1 : (msp.filter isInsert).isEmpty
    · simp [explodeDrawingAux, h1]
    · by_cases h2 : (explodePass blocks msp).2 == 0
      · simp [explodeDrawingAux, h1, h2]
      · have heq : (explodeDrawingAux blocks (f+1) msp p).2
            = (explodeDrawingAux blocks f (explodePass blocks msp).1 (p+1)).2 := by
          simp [explodeDrawingAux, h1, h2]
        rw [heq]
        exact le_trans (ih _ (p + 1)) (by omega)

theorem explodeAux_noop (blocks : List Block) (fuel : Nat) (msp : List Entity) (p : Nat)
    (h : msp.filter isInsert = []) : explodeDrawingAux blocks fuel msp p = (msp, p) := by
  cases fuel <;> simp [explodeDrawingAux, h]

theorem explodeAux_no_insert (blocks : List Block) (d : String → Nat)
    (hb : InsertDepthLt blocks d) :
    ∀ n fuel msp p, n ≤ fuel →
      (∀ e ∈ msp, isInsert e = true → d e.name < n) →
      ∀ e ∈ (explodeDrawingAux blocks fuel msp p).1, isInsert e = false := by
  intro n
  induction n with
  | zero =>
    intro fuel msp p _ hd e he
    have hfe : msp.filter isInsert = [] := by
      refine List.filter_eq_nil_iff.mpr (fun a ha hains => ?_)
      exact absurd (hd a ha hains) (Nat.not_lt_zero _)
    rw [explodeAux_noop blocks fuel msp p hfe] at he
    cases hcase : isInsert e with
    | false => rfl
    | true => exact absurd (hd e he hcase) (Nat.not_lt_zero _)
  | succ n ih =>
    intro fuel msp p hn hd e he
    cases fuel with
    | zero => exact absurd hn (by omega)
    | succ f =>
      by_cases h1 : (msp.filter isInsert).isEmpty
      · have hfe : msp.filter isInsert = [] := by simpa using h1
        rw [explodeAux_noop blocks (f+1) msp p hfe] at he
        have hall := List.filter_eq_nil_iff.mp hfe
        cases hcase : isInsert e with
        | false => rfl
        | true => exact absurd hcase (by simpa using hall e he)
      · have hpass : ∀ x ∈ (explodePass blocks msp).1, isInsert x = true → d x.name < n := by
          intro x hx hxi
          simp only [explodePass] at hx
          rcases List.mem_append.mp hx with hl | hr
          · have := (List.mem_filter.mp hl).2
            simp [hxi] at this
          · rcases List.mem_flatten.mp hr with ⟨l, hl, hxl⟩
            rcases List.mem_map.mp hl with ⟨i, hi, rfl⟩
            rcases List.mem_filter.mp hi with ⟨him, hii⟩
            simp only [explodeInsert] at hxl
            rcases hfb : findBlock blocks i.name with _ | b
            · simp [hfb] at hxl
            · simp only [hfb] at hxl
              have hfb' : List.find? (fun bb => bb.name == i.name) blocks = some b := by
                simpa [findBlock] using hfb
              have hbmem : b ∈ blocks := List.mem_of_find?_eq_some hfb'
              have hp := List.find?_some hfb'
              have hbname : b.name = i.name := by
                simp only [beq_iff_eq] at hp
                exact hp
              have hlt := hb b hbmem x hxl hxi
              rw [hbname] at hlt
              have h2 := hd i him hii
              omega
        by_cases h2 : (explodePass blocks msp).2 == 0
        · have heq : (explodeDrawingAux blocks (f+1) msp p).1 = (explodePass blocks msp).1 := by
            simp [explodeDrawingAux, h1, h2]
          rw [heq] at he
          have h20 : (msp.filter isInsert).countP
              (fun e => (findBlock blocks e.name).isSome) = 0 := by
            have := eq_of_beq h2
            simpa [explodePass] using this
          have hct := List.countP_eq_zero.mp h20
          simp only [explodePass] at he
          rcases List.mem_append.mp he with hl | hr
          · have := (List.mem_filter.mp hl).2
            simpa using this
          · exfalso
            rcases List.mem_flatten.mp hr with ⟨l, hl, hxl⟩
            rcases List.mem_map.mp hl with ⟨i, hi, rfl⟩
            have hno := hct i hi
            simp only [explodeInsert] at hxl
            rcases hfb : findBlock blocks i.name with _ | b
            · simp [hfb] at hxl
            · simp [hfb] at hno
        · have heq : (explodeDrawingAux blocks (f+1) msp p).1
              = (explodeDrawingAux blocks f (explodePass blocks msp).1 (p+1)).1 := by
            simp [explodeDrawingAux, h1, h2]
          rw [heq] at he
          exact ih f _ (p + 1) (by omega) hpass e he

/-- C1.  Flattening terminates within the pass cap: the loop performs at
most 20 passes on any input (and, being a total function of the model, never
raises), and whenever the block-reference graph admits a depth measure with
every modelspace INSERT below depth 20 (acyclic nesting of depth ≤ 20),
`explode_drawing` leaves zero INSERT entities in the layout. -/
theorem explode_drawing_terminates (blocks : List Block) (msp : List Entity) :
    (explode_drawing_full blocks msp).2 ≤ 20 ∧
    ∀ d : String → Nat, InsertDepthLt blocks d →
      (∀ e ∈ msp, isInsert e = true → d e.name < 20) →
      ∀ e ∈ explode_drawing blocks msp, isInsert e = false := by
  constructor
  · simpa using explodeAux_passes_le blocks 20 msp 0
  · intro d hb hd e he
    exact explodeAux_no_insert blocks d hb 20 20 msp 0 le_rfl hd e he

/-- Witness for C1 at a concrete two-level nesting. -/
theorem explode_drawing_terminates_witness :
    (explode_drawing_full FxBlocksNested [FxIns "OUTER", FxLine0]).2 ≤ 20 ∧
    ∀ e ∈ explode_drawing FxBlocksNested [FxIns "OUTER", FxLine0], isInsert e = false :=
  ⟨(explode_drawing_terminates FxBlocksNested [FxIns "OUTER", FxLine0]).1,
   (explode_drawing_terminates FxBlocksNested [FxIns "OUTER", FxLine0]).2 FxDepth
     (by simp only [InsertDepthLt]; decide) (by decide)⟩

/-- C3.  End-to-end layer-rule scenario: with rule table
`{"A": dest="B", color=1, lineWeight=25, lineType="continuous"}` and a
document whose modelspace holds one line on layer "A" ("B" absent), the run
completes with `FxDocC3N`: layer "B" exists with color 1 and line-weight 25,
the line entity lives on "B", and layer "A" has been reclaimed. -/
theorem process_dxf_scenario :
    process_dxf FxDocC3 [("A", FxRuleAB)] FxOptsOff none = Except.ok FxDocC3N ∧
    (∃ L ∈ FxDocC3N.layers, L.name = "B" ∧ L.color = 1 ∧ L.lineweight = 25) ∧
    (∀ e ∈ FxDocC3N.msp, e.layer = "B") ∧
    FxDocC3N.msp.length = 1 ∧
    (∀ L ∈ FxDocC3N.layers, L.name ≠ "A") :=
  ⟨rfl, by decide, by decide, by decide, by decide⟩

/-- C7 (counterexample).  The claim says a failing INSERT is "left in place
in the layout"; at this input the dangling INSERT `FxIns "MISSING"` is
instead deleted from the layout by the pass (the other INSERT is still
expanded, so the pass did continue). -/
theorem explode_failed_insert_counterexample :
    explode_drawing [⟨"BLK", [FxCircle]⟩] [FxIns "MISSING", FxLine0, FxIns "BLK"]
      = [FxLine0, FxCircle] ∧
    FxIns "MISSING" ∉
      explode_drawing [⟨"BLK", [FxCircle]⟩] [FxIns "MISSING", FxLine0, FxIns "BLK"] := by
  decide

/-- C7 (amended).  When expanding an Instance fails during a flattening pass
(dangling reference), the failure is non-fatal and the pass continues with
the remaining Instances — but the failing Instance is deleted from the
layout (`msp.delete_entity` on the still-alive entity), not left in place:
it contributes nothing to the pass output and, unless an equal INSERT is
re-introduced by some block's expansion, no longer occurs there, while every
other Instance's expansion is present. -/
theorem explode_failed_insert_deleted (blocks : List Block) (msp : List Entity)
    (e : Entity) (he : e ∈ msp) (hins : isInsert e = true)
    (hdangling : findBlock blocks e.name = none)
    (hfresh : ∀ b ∈ blocks, e ∉ b.entities) :
    e ∉ (explodePass blocks msp).1 ∧
    ∀ i ∈ msp, isInsert i = true →
      ∀ x ∈ explodeInsert blocks i, x ∈ (explodePass blocks msp).1 := by
  constructor
  · intro hmem
    simp only [explodePass] at hmem
    rcases List.mem_append.mp hmem with hl | hr
    · have := (List.mem_filter.mp hl).2
      simp [hins] at this
    · rcases List.mem_flatten.mp hr with ⟨l, hl, hxl⟩
      rcases List.mem_map.mp hl with ⟨i, _, rfl⟩
      simp only [explodeInsert] at hxl
      rcases hfb : findBlock blocks i.name with _ | b
      · simp [hfb] at hxl
      · simp only [hfb] at hxl
        have hb' : List.find? (fun bb => bb.name == i.name) blocks = some b := by
          simpa [findBlock] using hfb
        exact hfresh b (List.mem_of_find?_eq_some hb') hxl
  · intro i hi hii x hx
    simp only [explodePass]
    refine List.mem_append.mpr (Or.inr ?_)
    refine List.mem_flatten.mpr ⟨explodeInsert blocks i, ?_, hx⟩
    exact List.mem_map.mpr ⟨i, List.mem_filter.mpr ⟨hi, hii⟩, rfl⟩

/-- The entity loop completes exactly on POLYLINE-free lists, normalizing
pointwise. -/
theorem setBylayerList_ok (l : List Entity) (h : ∀ e ∈ l, e.dxftype ≠ "POLYLINE") :
    setBylayerList l = Except.ok (l.map setBylayerEnt) := by
  induction l with
  | nil => rfl
  | cons e rest ih =>
    unfold setBylayerList
    rw [if_neg (by simpa using h e (by simp)), ih (fun x hx => h x (by simp [hx]))]
    rfl

/-- Conversely, a completed entity loop means no legacy POLYLINE was met,
and the output is the pointwise normalization. -/
theorem setBylayerList_ok_inv (l : List Entity) :
    ∀ r, setBylayerList l = Except.ok r →
      r = l.map setBylayerEnt ∧ ∀ e ∈ l, e.dxftype ≠ "POLYLINE" := by
  induction l with
  | nil =>
    intro r h
    refine ⟨?_, by simp⟩
    simpa [setBylayerList] using h.symm
  | cons e rest ih =>
    intro r h
    unfold setBylayerList at h
    by_cases hp : e.dxftype == "POLYLINE"
    · rw [if_pos hp] at h
      exact absurd h (by simp)
    · rw [if_neg hp] at h
      rcases hrec : setBylayerList rest with u | r2
      · rw [hrec] at h
        exact absurd h (by simp)
      · rw [hrec] at h
        obtain ⟨hr2, hall⟩ := ih r2 hrec
        refine ⟨?_, ?_⟩
        · have hr : setBylayerEnt e :: r2 = r := by
            injection h
          rw [← hr, hr2]
          rfl
        · intro x hx
          rcases List.mem_cons.mp hx with rfl | hxr
          · simpa using hp
          · exact hall x hxr

/-- The block traversal on POLYLINE-free definitions. -/
theorem setBylayerBlocks_ok (bs : List Block)
    (h : ∀ b ∈ bs, ∀ e ∈ b.entities, e.dxftype ≠ "POLYLINE") :
    setBylayerBlocks bs
      = Except.ok (bs.map (fun b => { b with entities := b.entities.map setBylayerEnt })) := by
  induction bs with
  | nil => rfl
  | cons b rest ih =>
    unfold setBylayerBlocks
    rw [setBylayerList_ok b.entities (h b (by simp)),
      ih (fun x hx e he => h x (by simp [hx]) e he)]
    rfl

/-- Conversely, a completed block traversal means its definitions held no
legacy POLYLINE. -/
theorem setBylayerBlocks_ok_inv (bs : List Block) :
    ∀ r, setBylayerBlocks bs = Except.ok r →
      r = bs.map (fun b => { b with entities := b.entities.map setBylayerEnt }) ∧
      ∀ b ∈ bs, ∀ e ∈ b.entities, e.dxftype ≠ "POLYLINE" := by
  induction bs with
  | nil =>
    intro r h
    refine ⟨?_, by simp⟩
    simpa [setBylayerBlocks] using h.symm
  | cons b rest ih =>
    intro r h
    unfold setBylayerBlocks at h
    rcases hes : setBylayerList b.entities with u | es
    · rw [hes] at h
      exact absurd h (by simp)
    · rw [hes] at h
      rcases hrec : setBylayerBlocks rest with u | bs2
      · rw [hrec] at h
        exact absurd h (by simp)
      · rw [hrec] at h
        obtain ⟨hes2, hesall⟩ := setBylayerList_ok_inv b.entities es hes
        obtain ⟨hbs2, hball⟩ := ih bs2 hrec
        refine ⟨?_, ?_⟩
        · have hr : { b with entities := es } :: bs2 = r := by
            injection h
          rw [← hr, hes2, hbs2]
          rfl
        · intro x hx e he
          rcases List.mem_cons.mp hx with rfl | hxr
          · exact hesall e he
          · exact hball x hxr e he

/-- The style normalizer completes on a POLYLINE-free document, rewriting
the chained entity collection pointwise. -/
theorem force_all_bylayer_ok (doc : Document)
    (h : ∀ e ∈ allEntities doc, e.dxftype ≠ "POLYLINE") :
    force_all_bylayer doc = Except.ok (forceAllBylayerOk doc) := by
  have hm : ∀ e ∈ doc.msp, e.dxftype ≠ "POLYLINE" := by
    intro e he
    exact h e (by simp [allEntities, he])
  have hp : ∀ e ∈ doc.psp, e.dxftype ≠ "POLYLINE" := by
    intro e he
    exact h e (by simp [allEntities, he])
  have hb : ∀ b ∈ doc.blocks, ∀ e ∈ b.entities, e.dxftype ≠ "POLYLINE" := by
    intro b hbm e he
    refine h e ?_
    simp only [allEntities, List.mem_append]
    exact Or.inr (List.mem_flatten.mpr ⟨b.entities, List.mem_map.mpr ⟨b, hbm, rfl⟩, he⟩)
  unfold force_all_bylayer
  rw [setBylayerList_ok doc.msp hm, setBylayerList_ok doc.psp hp,
    setBylayerBlocks_ok doc.blocks hb]
  rfl

/-- Conversely, a completed normalizer run means the document chained no
legacy POLYLINE, and the result is the pointwise normalization. -/
theorem force_all_bylayer_ok_inv (doc f : Document)
    (h : force_all_bylayer doc = Except.ok f) :
    f = forceAllBylayerOk doc ∧ ∀ e ∈ allEntities doc, e.dxftype ≠ "POLYLINE" := by
  unfold force_all_bylayer at h
  rcases hm : setBylayerList doc.msp with u | m
  · rw [hm] at h
    exact absurd h (by simp)
  · rw [hm] at h
    rcases hp : setBylayerList doc.psp with u | p
    · rw [hp] at h
      exact absurd h (by simp)
    · rw [hp] at h
      rcases hb : setBylayerBlocks doc.blocks with u | bs
      · rw [hb] at h
        exact absurd h (by simp)
      · rw [hb] at h
        obtain ⟨hm2, hmall⟩ := setBylayerList_ok_inv doc.msp m hm
        obtain ⟨hp2, hpall⟩ := setBylayerList_ok_inv doc.psp p hp
        obtain ⟨hb2, hball⟩ := setBylayerBlocks_ok_inv doc.blocks bs hb
        have hf : { doc with msp := m, psp := p, blocks := bs } = f := by
          injection h
        refine ⟨?_, ?_⟩
        · rw [← hf, hm2, hp2, hb2]
          rfl
        · intro e he
          simp only [allEntities, List.mem_append] at he
          rcases he with (he | he) | he
          · exact hmall e he
          · exact hpall e he
          · rcases List.mem_flatten.mp he with ⟨es, hes, hee⟩
            rcases List.mem_map.mp hes with ⟨b, hbm, rfl⟩
            exact hball b hbm e hee

/-- A completed normalizer run rewrites the chained entity collection
pointwise. -/
theorem allEntities_forceOk (doc : Document) :
    allEntities (forceAllBylayerOk doc) = (allEntities doc).map setBylayerEnt := by
  simp only [allEntities, forceAllBylayerOk, List.map_append, List.map_flatten, List.map_map]
  rfl

/-- A completed normalizer run establishes the claimed no-override
post-state on every chained entity (INSERT ATTRIBs included; POLYLINE
vertices vacuously, no POLYLINE having survived to completion). -/
theorem force_all_ok_clears (doc f : Document)
    (h : force_all_bylayer doc = Except.ok f) :
    ∀ e ∈ allEntities f, entityBylayer e := by
  obtain ⟨rfl, hnp⟩ := force_all_bylayer_ok_inv doc f h
  intro e he
  rw [allEntities_forceOk] at he
  rcases List.mem_map.mp he with ⟨x, hx0, rfl⟩
  refine ⟨rfl, rfl, rfl, rfl, ?_, ?_⟩
  · intro hins a ha
    have hx : x.dxftype = "INSERT" := hins
    simp only [setBylayerEnt, hx] at ha
    simp only [beq_self_eq_true, if_true] at ha
    rcases List.mem_map.mp ha with ⟨v, _, rfl⟩
    exact ⟨rfl, rfl, rfl, rfl⟩
  · intro hpl v hv
    have hx : x.dxftype = "POLYLINE" := hpl
    exact absurd hx (hnp x hx0)

/-- C4 (code bug).  The spec's intent — "nested structures (instance
attributes, polyline vertices) are visited individually" — cannot be met by
the code: line 109 runs `for vertex in entity.vertices()`, but the module
imports `ezdxf.revcloud` (ezdxf ≥ 1.1), where a legacy `Polyline.vertices`
is a list attribute (unlike `entity.attribs` one line above, read without
parentheses), so the call raises `TypeError` with no handler in
`force_all_bylayer`: on a document chaining a legacy POLYLINE — here
`FxDocStyles` — the normalizer aborts the whole run instead of establishing
the claimed post-state, and the POLYLINE's vertices are never normalized. -/
theorem force_all_bylayer_crashes :
    (∃ e ∈ allEntities FxDocStyles, e.dxftype = "POLYLINE") ∧
    force_all_bylayer FxDocStyles = Except.error () :=
  ⟨by decide, rfl⟩

/-- The revision-cloud scan is a partition: the survivors are exactly the
entities the conversion predicate rejects, the recorded vertex sequences
exactly those of the accepted ones, in order. -/
theorem revcloudScan_eq (L : String) (msp : List Entity) :
    revcloudScan L msp =
      (msp.filter (fun e => !(revcloudConverts L e)),
       (msp.filter (revcloudConverts L)).map (·.verts)) := by
  induction msp with
  | nil => rfl
  | cons e rest ih =>
    by_cases h : revcloudConverts L e
    · simp [revcloudScan, List.filter_cons, h, ih]
    · simp [revcloudScan, List.filter_cons, h, ih]

/-- C5 (amended).  With `keepRevisionCloud` enabled and the target layer
resolved through the rule table, the revision-cloud step removes exactly
the closed LWPOLYLINEs on that layer (case-insensitive; closed by flag or
by first/last-vertex coincidence within 1e-4) — every converted entity is
an LWPOLYLINE — leaves every other modelspace entity unmodified, in
particular every legacy POLYLINE (its vertex collection raises and the
per-entity handler skips it in place), and appends one scalloped cloud per
removed entity, on the same target layer with by-layer styling (color 256,
line-weight −1). -/
theorem revcloud_step_spec (rules : List (String × LayerRule))
    (opts : ProcessingOptions) (msp : List Entity)
    (hk : opts.manter_nuvem_revisao = true) :
    revcloudStep rules opts msp =
      msp.filter (fun e => !(revcloudConverts (resolveRevLayer rules opts) e)) ++
        (msp.filter (revcloudConverts (resolveRevLayer rules opts))).map
          (fun e => revcloudEntity (resolveRevLayer rules opts) e.verts) ∧
    (∀ e, revcloudConverts (resolveRevLayer rules opts) e = true →
      e.dxftype = "LWPOLYLINE") ∧
    (∀ e ∈ msp, e.dxftype = "POLYLINE" → e ∈ revcloudStep rules opts msp) ∧
    ∀ pts, (revcloudEntity (resolveRevLayer rules opts) pts).layer
        = resolveRevLayer rules opts ∧
      (revcloudEntity (resolveRevLayer rules opts) pts).color = 256 ∧
      (revcloudEntity (resolveRevLayer rules opts) pts).lineweight = -1 ∧
      (revcloudEntity (resolveRevLayer rules opts) pts).dxftype = "LWPOLYLINE" := by
  have hlw : ∀ e, revcloudConverts (resolveRevLayer rules opts) e = true →
      e.dxftype = "LWPOLYLINE" := by
    intro e h
    simp only [revcloudConverts, verticesCallOk, Bool.and_eq_true, beq_iff_eq] at h
    exact h.2
  refine ⟨?_, hlw, ?_, ?_⟩
  · simp [revcloudStep, hk, apply_revcloud, revcloudScan_eq, List.map_map]
  · intro e he hp
    have hnc : revcloudConverts (resolveRevLayer rules opts) e = false := by
      rcases hb : revcloudConverts (resolveRevLayer rules opts) e with _ | _
      · rfl
      · rw [hlw e hb] at hp
        exact absurd hp (by decide)
    simp only [revcloudStep, hk, if_true, apply_revcloud, revcloudScan_eq]
    refine List.mem_append.mpr (Or.inl ?_)
    exact List.mem_filter.mpr ⟨he, by simp [hnc]⟩
  · intro pts
    exact ⟨rfl, rfl, rfl, rfl⟩

/-- Witness for the amended C5: the geometrically closed LWPOLYLINE
rectangle is converted, the open polyline and the closed-flagged legacy
POLYLINE survive in place. -/
theorem revcloud_step_spec_witness :
    (revcloudStep [] FxOptsOn [FxRect, FxOpenPl, FxPolyClosed] =
      [FxRect, FxOpenPl, FxPolyClosed].filter
          (fun e => !(revcloudConverts (resolveRevLayer [] FxOptsOn) e)) ++
        ([FxRect, FxOpenPl, FxPolyClosed].filter
            (revcloudConverts (resolveRevLayer [] FxOptsOn))).map
          (fun e => revcloudEntity (resolveRevLayer [] FxOptsOn) e.verts) ∧
     FxPolyClosed ∈ revcloudStep [] FxOptsOn [FxRect, FxOpenPl, FxPolyClosed]) ∧
    revcloudStep [] FxOptsOn [FxRect, FxOpenPl, FxPolyClosed]
      = [FxOpenPl, FxPolyClosed, revcloudEntity "LAYER099" FxRect.verts] :=
  ⟨⟨(revcloud_step_spec [] FxOptsOn [FxRect, FxOpenPl, FxPolyClosed] rfl).1,
    (revcloud_step_spec [] FxOptsOn [FxRect, FxOpenPl, FxPolyClosed] rfl).2.2.1
      FxPolyClosed (by decide) rfl⟩, by decide⟩

/-- C5 (counterexample).  A closed-flagged legacy POLYLINE on the target
layer is a closed polyline-family entity on that layer, yet the step leaves
it in place and synthesizes no cloud: `list(entity.vertices())` raises
`TypeError` before the record and the delete (`Polyline.vertices` is a list
attribute in the ezdxf release the module imports), the handler prints
`ERRO` and moves on — refuting the claim's "removed and replaced" for the
legacy half of the polyline family. -/
theorem revcloud_polyline_not_converted :
    isPolyFamily FxPolyClosed = true ∧ FxPolyClosed.is_closed = true ∧
    onLayerCI "LAYER099" FxPolyClosed = true ∧
    revcloudStep [] FxOptsOn [FxPolyClosed] = [FxPolyClosed] := by
  decide

/-- The test `closeTol` agrees with the `1e-4` absolute-difference tolerance. -/
theorem closeTol_iff (a b : ℚ) : closeTol a b = true ↔ |a - b| < 1/10000 := by
  have hda : (0:ℚ) < (a.den : ℚ) := by exact_mod_cast a.pos
  have hdb : (0:ℚ) < (b.den : ℚ) := by exact_mod_cast b.pos
  have hpos : (0:ℚ) < (a.den : ℚ) * (b.den : ℚ) := mul_pos hda hdb
  have ha : a * (a.den : ℚ) = (a.num : ℚ) := by
    have h := Rat.num_div_den a
    rw [div_eq_iff (ne_of_gt hda)] at h
    exact h.symm
  have hb : b * (b.den : ℚ) = (b.num : ℚ) := by
    have h := Rat.num_div_den b
    rw [div_eq_iff (ne_of_gt hdb)] at h
    exact h.symm
  have key : (a - b) * ((a.den : ℚ) * (b.den : ℚ))
      = ((a.num * b.den - b.num * a.den : ℤ) : ℚ) := by
    push_cast
    calc (a - b) * ((a.den : ℚ) * (b.den : ℚ))
        = (a * (a.den : ℚ)) * (b.den : ℚ) - (b * (b.den : ℚ)) * (a.den : ℚ) := by ring
      _ = (a.num : ℚ) * (b.den : ℚ) - (b.num : ℚ) * (a.den : ℚ) := by rw [ha, hb]
  have habs : |a - b| * ((a.den : ℚ) * (b.den : ℚ))
      = (((a.num * b.den - b.num * a.den).natAbs : ℕ) : ℚ) := by
    rw [← abs_of_pos hpos, ← abs_mul, key]
    push_cast [Int.cast_natAbs]
    simp
  constructor
  · intro h
    have hn : ((a.num * b.den - b.num * a.den).natAbs : Nat) * 10000 < a.den * b.den := by
      simpa [closeTol] using h
    have hq : (((a.num * b.den - b.num * a.den).natAbs : ℕ) : ℚ) * 10000
        < ((a.den : ℚ) * (b.den : ℚ)) := by
      exact_mod_cast hn
    rw [← habs] at hq
    nlinarith [abs_nonneg (a - b)]
  · intro h
    have hq : |a - b| * ((a.den : ℚ) * (b.den : ℚ))
        < (1/10000) * ((a.den : ℚ) * (b.den : ℚ)) :=
      mul_lt_mul_of_pos_right h hpos
    rw [habs] at hq
    have hq2 : (((a.num * b.den - b.num * a.den).natAbs : ℕ) : ℚ) * 10000
        < ((a.den : ℚ) * (b.den : ℚ)) := by nlinarith
    have hn : ((a.num * b.den - b.num * a.den).natAbs) * 10000 < a.den * b.den := by
      exact_mod_cast hq2
    simpa [closeTol] using hn

/-- C10.  Geometric closure needs more than 2 vertices: a polyline-family
entity on the target layer whose closed flag is false is converted only if
it has at least 3 vertices with first and last within the 1e-4 tolerance
(for an LWPOLYLINE — the one family member whose vertex collection
succeeds — exactly then); a 2-vertex polyline with coinciding endpoints is
never converted and is left in place by `apply_revcloud`. -/
theorem revcloud_two_vertex_skipped (L : String) (e : Entity)
    (hf : isPolyFamily e = true) (hl : onLayerCI L e = true)
    (hc : e.is_closed = false) :
    (revcloudConverts L e = true → 2 < e.verts.length ∧ coincideTol e) ∧
    (e.dxftype = "LWPOLYLINE" →
      (revcloudConverts L e = true ↔ 2 < e.verts.length ∧ coincideTol e)) ∧
    (e.verts.length = 2 →
      revcloudConverts L e = false ∧
      ∀ msp, e ∈ msp → e ∈ apply_revcloud msp L) := by
  have honly : revcloudConverts L e = true → 2 < e.verts.length ∧ coincideTol e := by
    by_cases hlw : e.dxftype = "LWPOLYLINE"
    · have hok : verticesCallOk e = true := by
        simp [verticesCallOk, hlw]
      have hred : revcloudConverts L e = geomClosed e := by
        simp [revcloudConverts, hf, hl, hc, hok]
      rw [hred]
      rcases hv : e.verts with _ | ⟨v0, rest⟩
      · simp [geomClosed, coincideTol, hok, hv]
      · have hlast : (v0 :: rest).getLast? = some ((v0 :: rest).getLast (by simp)) :=
          List.getLast?_eq_getLast _ _
        simp only [geomClosed, hok, if_true, coincideTol, hv, List.head?_cons, hlast,
          Bool.and_eq_true, decide_eq_true_eq, closeTol_iff]
        tauto
    · have hok : verticesCallOk e = false := by
        simp [verticesCallOk, hlw]
      have hred : revcloudConverts L e = false := by
        simp [revcloudConverts, hok]
      simp [hred]
  have hiff : e.dxftype = "LWPOLYLINE" →
      (revcloudConverts L e = true ↔ 2 < e.verts.length ∧ coincideTol e) := by
    intro hlw
    have hok : verticesCallOk e = true := by
      simp [verticesCallOk, hlw]
    have hred : revcloudConverts L e = geomClosed e := by
      simp [revcloudConverts, hf, hl, hc, hok]
    rw [hred]
    rcases hv : e.verts with _ | ⟨v0, rest⟩
    · simp [geomClosed, coincideTol, hok, hv]
    · have hlast : (v0 :: rest).getLast? = some ((v0 :: rest).getLast (by simp)) :=
        List.getLast?_eq_getLast _ _
      simp only [geomClosed, hok, if_true, coincideTol, hv, List.head?_cons, hlast,
        Bool.and_eq_true, decide_eq_true_eq, closeTol_iff]
      tauto
  refine ⟨honly, hiff, fun h2 => ?_⟩
  have hb : revcloudConverts L e = false := by
    rcases hbb : revcloudConverts L e with _ | _
    · rfl
    · have := (honly hbb).1
      omega
  refine ⟨hb, fun msp hmem => ?_⟩
  simp only [apply_revcloud, revcloudScan_eq]
  refine List.mem_append.mpr (Or.inl ?_)
  exact List.mem_filter.mpr ⟨hmem, by simp [hb]⟩

/-- Witness for C10 at the degenerate two-vertex LWPOLYLINE, which reaches
the `len(points) > 2` guard itself. -/
theorem revcloud_two_vertex_skipped_witness :
    (revcloudConverts "LAYER099" FxSeg2 = true →
      2 < FxSeg2.verts.length ∧ coincideTol FxSeg2) ∧
    (FxSeg2.dxftype = "LWPOLYLINE" →
      (revcloudConverts "LAYER099" FxSeg2 = true ↔
        2 < FxSeg2.verts.length ∧ coincideTol FxSeg2)) ∧
    (FxSeg2.verts.length = 2 →
      revcloudConverts "LAYER099" FxSeg2 = false ∧
      ∀ msp, FxSeg2 ∈ msp → FxSeg2 ∈ apply_revcloud msp "LAYER099") :=
  revcloud_two_vertex_skipped "LAYER099" FxSeg2 (by decide) (by decide) (by decide)

theorem foldl_linetypes_keeps (src : List String) :
    ∀ acc n, n ∈ acc → n ∈ src.foldl addLinetypeIfMissing acc := by
  induction src with
  | nil => intro acc n h; simpa using h
  | cons a rest ih =>
    intro acc n h
    simp only [List.foldl_cons]
    refine ih _ n ?_
    unfold addLinetypeIfMissing
    by_cases hc : ciMemStr a acc
    · rw [if_pos hc]; exact h
    · rw [if_neg hc]; exact List.mem_append.mpr (Or.inl h)

theorem foldl_linetypes_mono (src : List String) :
    ∀ acc n, ciMemStr n acc = true →
      ciMemStr n (src.foldl addLinetypeIfMissing acc) = true := by
  induction src with
  | nil => intro acc n h; simpa using h
  | cons a rest ih =>
    intro acc n h
    simp only [List.foldl_cons]
    refine ih _ n ?_
    unfold addLinetypeIfMissing
    by_cases hc : ciMemStr a acc
    · rw [if_pos hc]; exact h
    · rw [if_neg hc]
      simp only [ciMemStr, List.any_append, Bool.or_eq_true]
      exact Or.inl h

theorem foldl_linetypes_covers (src : List String) :
    ∀ acc n, n ∈ src → ciMemStr n (src.foldl addLinetypeIfMissing acc) = true := by
  induction src with
  | nil => intro acc n h; simp at h
  | cons a rest ih =>
    intro acc n h
    rcases List.mem_cons.mp h with rfl | hr
    · simp only [List.foldl_cons]
      refine foldl_linetypes_mono rest _ n ?_
      unfold addLinetypeIfMissing
      by_cases hc : ciMemStr n acc
      · rw [if_pos hc]; exact hc
      · rw [if_neg hc]
        simp only [ciMemStr, List.any_append, Bool.or_eq_true]
        refine Or.inr ?_
        simp [upperEq]
    · simp only [List.foldl_cons]
      exact ih _ n hr

theorem foldl_linetypes_from (src : List String) :
    ∀ acc n, n ∈ src.foldl addLinetypeIfMissing acc → n ∈ acc ∨ n ∈ src := by
  induction src with
  | nil => intro acc n h; simp only [List.foldl_nil] at h; exact Or.inl h
  | cons a rest ih =>
    intro acc n h
    simp only [List.foldl_cons] at h
    rcases ih _ n h with h1 | h2
    · unfold addLinetypeIfMissing at h1
      by_cases hc : ciMemStr a acc
      · rw [if_pos hc] at h1
        exact Or.inl h1
      · rw [if_neg hc] at h1
        rcases List.mem_append.mp h1 with h3 | h4
        · exact Or.inl h3
        · simp only [List.mem_singleton] at h4
          exact Or.inr (by simp [h4])
    · exact Or.inr (List.mem_cons_of_mem _ h2)

theorem foldl_styles_keeps (src : List (String × String)) :
    ∀ acc p, p ∈ acc → p ∈ src.foldl addStyleIfMissing acc := by
  induction src with
  | nil => intro acc p h; simpa using h
  | cons a rest ih =>
    intro acc p h
    simp only [List.foldl_cons]
    refine ih _ p ?_
    unfold addStyleIfMissing
    by_cases hc : acc.any (fun t => upperEq t.1 a.1)
    · rw [if_pos hc]; exact h
    · rw [if_neg hc]; exact List.mem_append.mpr (Or.inl h)

theorem foldl_styles_from (src : List (String × String)) :
    ∀ acc p, p ∈ src.foldl addStyleIfMissing acc →
      p ∈ acc ∨ (p ∈ src ∧ acc.all (fun t => !(upperEq t.1 p.1)) = true) := by
  induction src with
  | nil => intro acc p h; simp only [List.foldl_nil] at h; exact Or.inl h
  | cons a rest ih =>
    intro acc p h
    simp only [List.foldl_cons] at h
    rcases ih _ p h with h1 | ⟨h2, h3⟩
    · unfold addStyleIfMissing at h1
      by_cases hc : acc.any (fun t => upperEq t.1 a.1)
      · rw [if_pos hc] at h1
        exact Or.inl h1
      · rw [if_neg hc] at h1
        rcases List.mem_append.mp h1 with h3 | h4
        · exact Or.inl h3
        · simp only [List.mem_singleton] at h4
          subst h4
          refine Or.inr ⟨List.mem_cons_self _ _, ?_⟩
          have hcf : acc.any (fun t => upperEq t.1 p.1) = false :=
            Bool.eq_false_iff.mpr hc
          simp only [List.any_eq_false] at hcf
          simp only [List.all_eq_true]
          intro t ht
          have := hcf t ht
          simp only [Bool.not_eq_true] at this
          simp [this]
    · refine Or.inr ⟨List.mem_cons_of_mem _ h2, ?_⟩
      simp only [List.all_eq_true] at h3 ⊢
      intro t ht
      refine h3 t ?_
      unfold addStyleIfMissing
      by_cases hc : acc.any (fun q => upperEq q.1 a.1)
      · rw [if_pos hc]; exact ht
      · rw [if_neg hc]; exact List.mem_append.mpr (Or.inl ht)

/-- C6.  Stamp merge contract of `apply_logos`: the target's modelspace ends
as its own entities with every IMAGE deleted, followed by a copy of every
primitive of the (prepared) stamp modelspace — so any IMAGE present
afterwards came from the stamp; every linetype and style of the target is
kept; every stamp linetype name is present afterwards; a linetype present
afterwards came from target or stamp; every stamp style whose name collides
with a target style is skipped (any style added from the stamp has a name
that none of the target's styles carries); and the merge phase itself
returns the stamp document unchanged (the copies are independent values in
the model, so mutating them cannot affect the stamp). -/
theorem apply_logos_spec (t s : Document) :
    (apply_logos t s).2 = stampPrep s ∧
    (apply_logos t s).1.msp
      = t.msp.filter (fun e => !(e.dxftype == "IMAGE")) ++ (stampPrep s).msp ∧
    (∀ e ∈ (apply_logos t s).1.msp, e.dxftype = "IMAGE" → e ∈ (stampPrep s).msp) ∧
    (∀ n ∈ t.linetypes, n ∈ (apply_logos t s).1.linetypes) ∧
    (∀ n ∈ (stampPrep s).linetypes, ciMemStr n (apply_logos t s).1.linetypes = true) ∧
    (∀ n ∈ (apply_logos t s).1.linetypes, n ∈ t.linetypes ∨ n ∈ (stampPrep s).linetypes) ∧
    (∀ p ∈ t.styles, p ∈ (apply_logos t s).1.styles) ∧
    (∀ p ∈ (apply_logos t s).1.styles,
      p ∈ t.styles ∨
        (p ∈ (stampPrep s).styles ∧ t.styles.all (fun q => !(upperEq q.1 p.1)) = true)) := by
  refine ⟨rfl, rfl, ?_, ?_, ?_, ?_, ?_, ?_⟩
  · intro e he himg
    have hmsp : (apply_logos t s).1.msp
        = t.msp.filter (fun e => !(e.dxftype == "IMAGE")) ++ (stampPrep s).msp := rfl
    rw [hmsp] at he
    rcases List.mem_append.mp he with h1 | h2
    · have := (List.mem_filter.mp h1).2
      simp [himg] at this
    · exact h2
  · intro n hn
    exact foldl_linetypes_keeps (stampPrep s).linetypes t.linetypes n hn
  · intro n hn
    exact foldl_linetypes_covers (stampPrep s).linetypes t.linetypes n hn
  · intro n hn
    exact foldl_linetypes_from (stampPrep s).linetypes t.linetypes n hn
  · intro p hp
    exact foldl_styles_keeps (stampPrep s).styles t.styles p hp
  · intro p hp
    exact foldl_styles_from (stampPrep s).styles t.styles p hp

/-- Witness for C6: merging the flat stamp into a target holding one IMAGE.
The target IMAGE disappears, the stamp's line arrives as a copy, the
stamp-only resources are added, the collision on "Standard" keeps the
target's font. -/
theorem apply_logos_spec_witness :
    (apply_logos FxTargetImg FxStampFlat).2 = stampPrep FxStampFlat ∧
    (apply_logos FxTargetImg FxStampFlat).1.msp
      = FxTargetImg.msp.filter (fun e => !(e.dxftype == "IMAGE"))
          ++ (stampPrep FxStampFlat).msp ∧
    ("STAMPLT" ∈ (apply_logos FxTargetImg FxStampFlat).1.linetypes) ∧
    (("Standard", "arial.ttf") ∈ (apply_logos FxTargetImg FxStampFlat).1.styles) ∧
    (("Standard", "txt") ∉ (apply_logos FxTargetImg FxStampFlat).1.styles) :=
  ⟨(apply_logos_spec FxTargetImg FxStampFlat).1,
   (apply_logos_spec FxTargetImg FxStampFlat).2.1, by decide, by decide, by decide⟩

theorem countP_le_of_imp (l : List String) (p q : String → Bool)
    (hmono : ∀ x, q x = true → p x = true) : l.countP q ≤ l.countP p := by
  induction l with
  | nil => simp
  | cons y ys ihy =>
    simp only [List.countP_cons]
    have h1 : (if q y = true then 1 else 0) ≤ (if p y = true then 1 else 0) := by
      by_cases hy : q y = true
      · simp [hy, hmono y hy]
      · simp [hy]
    omega

theorem countP_lt_of_mark {l : List String} {p q : String → Bool} (a : String)
    (ha : a ∈ l) (hpa : p a = true) (hqa : q a = false)
    (hmono : ∀ x, q x = true → p x = true) : l.countP q < l.countP p := by
  induction l with
  | nil => simp at ha
  | cons x xs ih =>
    rcases List.mem_cons.mp ha with rfl | hxs
    · have hcq : (a :: xs).countP q = xs.countP q := by
        simp [List.countP_cons, hqa]
      have hcp : (a :: xs).countP p = xs.countP p + 1 := by
        simp [List.countP_cons, hpa]
      rw [hcq, hcp]
      have := countP_le_of_imp xs p q hmono
      omega
    · have h1 := ih hxs
      simp only [List.countP_cons]
      have h2 : (if q x = true then 1 else 0) ≤ (if p x = true then 1 else 0) := by
        by_cases hy : q x = true
        · simp [hy, hmono x hy]
        · simp [hy]
      omega

theorem countNone_mono (graph : List (String × List String)) (st st2 : DfsState)
    (h : ∀ m, st2.visited m = none → st.visited m = none) :
    countNone graph st2 ≤ countNone graph st := by
  unfold countNone
  induction (graph.map Prod.fst) with
  | nil => simp
  | cons x xs ih =>
    simp only [List.countP_cons]
    have h2 : (if (st2.visited x).isNone = true then 1 else 0)
        ≤ (if (st.visited x).isNone = true then 1 else 0) := by
      by_cases hy : (st2.visited x).isNone = true
      · have := h x (Option.isNone_iff_eq_none.mp hy)
        simp [hy, this]
      · simp [hy]
    omega

theorem nbrsOf_mem_keys (graph : List (String × List String))
    (HG : ∀ p ∈ graph, ∀ m ∈ p.2, m ∈ graph.map Prod.fst) (n B : String)
    (hB : B ∈ nbrsOf graph n) : B ∈ graph.map Prod.fst := by
  unfold nbrsOf at hB
  rcases hfind : graph.find? (fun p => p.1 == n) with _ | p
  · simp [hfind] at hB
  · rw [hfind] at hB
    exact HG p (List.mem_of_find?_eq_some hfind) B hB

theorem nbrsOf_rank (graph : List (String × List String)) (rank : String → Nat)
    (HR : ∀ p ∈ graph, ∀ m ∈ p.2, rank m < rank p.1) (n B : String)
    (hB : B ∈ nbrsOf graph n) : rank B < rank n := by
  unfold nbrsOf at hB
  rcases hfind : graph.find? (fun p => p.1 == n) with _ | p
  · simp [hfind] at hB
  · rw [hfind] at hB
    have h1 := HR p (List.mem_of_find?_eq_some hfind) B hB
    have h2 := List.find?_some hfind
    have h3 : p.1 = n := by simpa using h2
    rw [h3] at h1
    exact h1

theorem VisitOut.trans {st1 st2 st3 : DfsState}
    (h1 : VisitOut st1 st2) (h2 : VisitOut st2 st3) : VisitOut st1 st3 := by
  obtain ⟨a1, b1, c1, t1, ht1⟩ := h1
  obtain ⟨a2, b2, c2, t2, ht2⟩ := h2
  refine ⟨fun m hm => a2 m (a1 m hm), fun m => (b2 m).trans (b1 m),
    fun m hm => c1 m (c2 m hm), t1 ++ t2, ?_⟩
  rw [ht2, ht1, List.append_assoc]

theorem VisitOut.rfl (st : DfsState) : VisitOut st st :=
  ⟨fun _ hm => hm, fun _ => Iff.rfl, fun _ hm => hm, [], by simp⟩

theorem dfsGo_spec (graph : List (String × List String)) (rank : String → Nat) (fuel : Nat)
    (hvs : ∀ node st, node ∈ graph.map Prod.fst → countNone graph st < fuel →
      (∀ p, st.visited p = some 1 → rank node < rank p) → DfsInv graph st →
      ∃ st2, dfsVisit graph fuel node st = Except.ok st2 ∧ VisitOut st st2 ∧
        st2.visited node = some 2 ∧ DfsInv graph st2) :
    ∀ ns st, (∀ n ∈ ns, n ∈ graph.map Prod.fst) → countNone graph st < fuel →
      (∀ n ∈ ns, ∀ p, st.visited p = some 1 → rank n < rank p) → DfsInv graph st →
      ∃ st2, dfsListGo (dfsVisit graph fuel) ns st = Except.ok st2 ∧ VisitOut st st2 ∧
        (∀ n ∈ ns, st2.visited n = some 2) ∧ DfsInv graph st2 := by
  intro ns
  induction ns with
  | nil =>
    intro st _ _ _ hinv
    exact ⟨st, rfl, VisitOut.rfl st, by simp, hinv⟩
  | cons n rest ih =>
    intro st hks hc hr hinv
    obtain ⟨st1, hok1, hout1, hdone1, hinv1⟩ :=
      hvs n st (hks n (by simp)) hc (hr n (by simp)) hinv
    have hc1 : countNone graph st1 < fuel :=
      lt_of_le_of_lt (countNone_mono graph st st1 hout1.2.2.1) hc
    have hr1 : ∀ m ∈ rest, ∀ p, st1.visited p = some 1 → rank m < rank p := by
      intro m hm p hp
      exact hr m (by simp [hm]) p ((hout1.2.1 p).mp hp)
    obtain ⟨st2, hok2, hout2, hdone2, hinv2⟩ :=
      ih st1 (fun m hm => hks m (by simp [hm])) hc1 hr1 hinv1
    refine ⟨st2, ?_, hout1.trans hout2, ?_, hinv2⟩
    · simp only [dfsListGo, hok1]
      exact hok2
    · intro m hm
      rcases List.mem_cons.mp hm with rfl | hmr
      · exact hout2.1 m hdone1
      · exact hdone2 m hmr

theorem dfsVisit_spec (graph : List (String × List String)) (rank : String → Nat)
    (HG : ∀ p ∈ graph, ∀ m ∈ p.2, m ∈ graph.map Prod.fst)
    (HR : ∀ p ∈ graph, ∀ m ∈ p.2, rank m < rank p.1) :
    ∀ fuel node st, node ∈ graph.map Prod.fst → countNone graph st < fuel →
      (∀ p, st.visited p = some 1 → rank node < rank p) → DfsInv graph st →
      ∃ st2, dfsVisit graph fuel node st = Except.ok st2 ∧ VisitOut st st2 ∧
        st2.visited node = some 2 ∧ DfsInv graph st2 := by
  intro fuel
  induction fuel with
  | zero =>
    intro node st _ hc _ _
    exact absurd hc (Nat.not_lt_zero _)
  | succ fuel ih =>
    intro node st hk hc hr hinv
    obtain ⟨i1, i2, i3, i4, i5, i6⟩ := hinv
    rcases hv : st.visited node with _ | v
    · -- unvisited node: mark in progress, visit the neighbours, mark done
      have hcm : countNone graph
          ⟨fun m => if m = node then some 1 else st.visited m, st.order⟩
          < countNone graph st := by
        refine countP_lt_of_mark node hk ?_ ?_ ?_
        · simp [hv]
        · simp
        · intro x hx
          by_cases hxn : x = node
          · subst hxn
            simp at hx
          · simpa [hxn] using hx
      have hcf : countNone graph
          ⟨fun m => if m = node then some 1 else st.visited m, st.order⟩ < fuel := by
        omega
      have hks : ∀ n ∈ nbrsOf graph node, n ∈ graph.map Prod.fst :=
        fun n hn => nbrsOf_mem_keys graph HG node n hn
      have hrn : ∀ n ∈ nbrsOf graph node, ∀ p,
          (⟨fun m => if m = node then some 1 else st.visited m, st.order⟩ :
            DfsState).visited p = some 1 → rank n < rank p := by
        intro n hn p hp
        have h1 : rank n < rank node := nbrsOf_rank graph rank HR node n hn
        by_cases hpn : p = node
        · subst hpn
          exact h1
        · have hp' : st.visited p = some 1 := by simpa [hpn] using hp
          exact lt_trans h1 (hr p hp')
      have hinv1 : DfsInv graph
          ⟨fun m => if m = node then some 1 else st.visited m, st.order⟩ := by
        refine ⟨?_, ?_, i3, i4, ?_, i6⟩
        · intro n hn
          have h2 := i1 n hn
          by_cases hnn : n = node
          · subst hnn
            rw [hv] at h2
            exact absurd h2 (by simp)
          · simpa [hnn] using h2
        · intro n h2
          by_cases hnn : n = node
          · subst hnn
            simp at h2
          · exact i2 n (by simpa [hnn] using h2)
        · intro n v hvv
          by_cases hnn : n = node
          · subst hnn
            simp at hvv
            exact Or.inl hvv.symm
          · exact i5 n v (by simpa [hnn] using hvv)
      obtain ⟨st2, hok2, hout2, hdone2, hinv2⟩ :=
        dfsGo_spec graph rank fuel ih (nbrsOf graph node)
          ⟨fun m => if m = node then some 1 else st.visited m, st.order⟩
          hks hcf hrn hinv1
      have hnode1 : st2.visited node = some 1 := (hout2.2.1 node).mpr (by simp)
      have hnotin : node ∉ st2.order := by
        intro hmem
        have := hinv2.1 node hmem
        rw [hnode1] at this
        simp at this
      have hres : dfsVisit graph (fuel+1) node st
          = Except.ok ⟨fun m => if m = node then some 2 else st2.visited m,
              st2.order ++ [node]⟩ := by
        simp only [dfsVisit, hv, hok2]
      refine ⟨⟨fun m => if m = node then some 2 else st2.visited m,
        st2.order ++ [node]⟩, hres, ?_, by simp, ?_⟩
      · -- VisitOut st st'
        obtain ⟨tail2, htail2⟩ := hout2.2.2.2
        refine ⟨?_, ?_, ?_, tail2 ++ [node], ?_⟩
        · intro m hm
          have hmn : m ≠ node := by
            intro hmn
            rw [hmn, hv] at hm
            exact absurd hm (by simp)
          have h1 : st2.visited m = some 2 := hout2.1 m (by simpa [hmn] using hm)
          simpa [hmn] using h1
        · intro m
          by_cases hmn : m = node
          · subst hmn
            simp [hv]
          · have h1 := hout2.2.1 m
            simp only [hmn, if_false]
            rw [h1]
            simp [hmn]
        · intro m hm
          by_cases hmn : m = node
          · subst hmn
            simp at hm
          · have h1 : st2.visited m = none := by simpa [hmn] using hm
            have h2 := hout2.2.2.1 m h1
            simpa [hmn] using h2
        · simp only [htail2]
          simp [List.append_assoc]
      · -- DfsInv st'
        refine ⟨?_, ?_, ?_, ?_, ?_, ?_⟩
        · intro n hn
          rcases List.mem_append.mp hn with h1 | h2
          · have hne : n ≠ node := fun hq => hnotin (hq ▸ h1)
            have := hinv2.1 n h1
            simpa [hne] using this
          · simp only [List.mem_singleton] at h2
            subst h2
            simp
        · intro n h2
          by_cases hnn : n = node
          · subst hnn
            simp
          · have : st2.visited n = some 2 := by simpa [hnn] using h2
            exact List.mem_append.mpr (Or.inl (hinv2.2.1 n this))
        · intro n hn
          rcases List.mem_append.mp hn with h1 | h2
          · exact hinv2.2.2.1 n h1
          · simp only [List.mem_singleton] at h2
            subst h2
            exact hk
        · refine List.Nodup.append hinv2.2.2.2.1 (List.nodup_singleton _) ?_
          intro a ha hb
          simp only [List.mem_singleton] at hb
          subst hb
          exact hnotin ha
        · intro n v hvv
          by_cases hnn : n = node
          · subst hnn
            simp at hvv
            exact Or.inr hvv.symm
          · exact hinv2.2.2.2.2.1 n v (by simpa [hnn] using hvv)
        · intro l1 A l2 hsplit B hB
          rcases l2.eq_nil_or_concat with rfl | ⟨l2', a, rfl⟩
          · have hinj := List.append_inj' hsplit.symm (by simp)
            obtain ⟨ho, hA⟩ := hinj
            simp only [List.cons.injEq] at hA
            obtain ⟨hA1, _⟩ := hA
            subst hA1
            subst ho
            exact hinv2.2.1 B (hdone2 B hB)
          · have hsplit' : st2.order ++ [node] = l1 ++ A :: (l2' ++ [a]) := by
              simpa using hsplit
            have hsplit2 : st2.order ++ [node] = (l1 ++ A :: l2') ++ [a] := by
              rw [hsplit']
              simp
            have hinj := List.append_inj' hsplit2 (by simp)
            obtain ⟨ho, _⟩ := hinj
            exact hinv2.2.2.2.2.2 l1 A l2' ho B hB
    · -- already visited: 1 is a cycle hit (excluded by the rank), 2 returns
      rcases i5 node v hv with rfl | rfl
      · exact absurd (hr node hv) (lt_irrefl _)
      · refine ⟨st, ?_, VisitOut.rfl st, hv, ⟨i1, i2, i3, i4, i5, i6⟩⟩
        simp [dfsVisit, hv]

theorem blockNbrs_sub (doc : Document) (removable : List String) (b : String) :
    ∀ m ∈ blockNbrs doc removable b, m ∈ removable := by
  unfold blockNbrs
  rcases findBlock doc.blocks b with _ | bd
  · simp
  · have hgen : ∀ (ents : List Entity) (acc : List String), (∀ x ∈ acc, x ∈ removable) →
        ∀ m ∈ ents.foldl (fun acc e =>
          if isInsert e && removable.contains e.name && !(acc.contains e.name)
          then acc ++ [e.name] else acc) acc, m ∈ removable := by
      intro ents
      induction ents with
      | nil => intro acc hacc m hm; exact hacc m (by simpa using hm)
      | cons e rest ihe =>
        intro acc hacc m hm
        simp only [List.foldl_cons] at hm
        refine ihe _ ?_ m hm
        by_cases hcond : isInsert e && removable.contains e.name && !(acc.contains e.name)
        · rw [if_pos hcond]
          intro x hx
          rcases List.mem_append.mp hx with h1 | h2
          · exact hacc x h1
          · simp only [List.mem_singleton] at h2
            subst h2
            have h3 : removable.contains e.name = true := by
              have := (Bool.and_elim_left hcond)
              exact Bool.and_elim_right this
            simpa using h3
        · rw [if_neg hcond]
          exact hacc
    intro m hm
    exact hgen bd.entities [] (by simp) m hm

theorem buildGraph_keys (doc : Document) (removable : List String) :
    (buildGraph doc removable).map Prod.fst = removable := by
  simp only [buildGraph, List.map_map]
  exact List.map_id _

/-- C2.  Purge ordering is safe in the acyclic case: whenever the reference
graph over removable block definitions admits a rank function (every edge
"A's definition contains an INSERT of B" strictly decreases the rank, i.e.
the graph is acyclic), the deletion order `purge_blocks` iterates places
every referencing definition strictly before every definition it references;
and a definition whose name starts (case-insensitively) with *MODEL_SPACE or
*PAPER_SPACE is never in the removable set and never in the deletion
order. -/
theorem purge_order_safe (doc : Document) (rank : String → Nat)
    (HR : ∀ p ∈ buildGraph doc (removableBlocks doc), ∀ m ∈ p.2, rank m < rank p.1) :
    (∀ A B, B ∈ nbrsOf (buildGraph doc (removableBlocks doc)) A →
      precedes (purgeOrder doc) A B) ∧
    (∀ n, reservedSpaceName n = true →
      n ∉ removableBlocks doc ∧ n ∉ purgeOrder doc) := by
  have hkeys : (buildGraph doc (removableBlocks doc)).map Prod.fst
      = removableBlocks doc := buildGraph_keys doc (removableBlocks doc)
  have HG : ∀ p ∈ buildGraph doc (removableBlocks doc), ∀ m ∈ p.2,
      m ∈ (buildGraph doc (removableBlocks doc)).map Prod.fst := by
    intro p hp m hm
    rw [hkeys]
    rcases List.mem_map.mp hp with ⟨b, _, rfl⟩
    exact blockNbrs_sub doc (removableBlocks doc) b m hm
  have hinv0 : DfsInv (buildGraph doc (removableBlocks doc)) ⟨fun _ => none, []⟩ := by
    refine ⟨by simp, by simp, by simp, List.nodup_nil, by simp, ?_⟩
    intro l1 A l2 hsplit
    exact absurd hsplit.symm (by simp)
  have hc0 : countNone (buildGraph doc (removableBlocks doc)) ⟨fun _ => none, []⟩
      < (buildGraph doc (removableBlocks doc)).length + 1 := by
    unfold countNone
    have h1 := List.countP_le_length
      (p := fun k => ((⟨fun _ => none, []⟩ : DfsState).visited k).isNone)
      (l := (buildGraph doc (removableBlocks doc)).map Prod.fst)
    have h2 : ((buildGraph doc (removableBlocks doc)).map Prod.fst).length
        = (buildGraph doc (removableBlocks doc)).length := List.length_map _ _
    omega
  obtain ⟨stf, hokf, houtf, hdonef, hinvf⟩ :=
    dfsGo_spec (buildGraph doc (removableBlocks doc)) rank
      ((buildGraph doc (removableBlocks doc)).length + 1)
      (dfsVisit_spec (buildGraph doc (removableBlocks doc)) rank HG HR
        ((buildGraph doc (removableBlocks doc)).length + 1))
      ((buildGraph doc (removableBlocks doc)).map Prod.fst)
      ⟨fun _ => none, []⟩ (fun n hn => hn) hc0 (by intro n _ p hp; simp at hp) hinv0
  have horder : purgeOrder doc = stf.order.reverse := by
    unfold purgeOrder getDeletionOrder
    simp only [hokf]
  constructor
  · intro A B hB
    have hAkeys : A ∈ (buildGraph doc (removableBlocks doc)).map Prod.fst := by
      unfold nbrsOf at hB
      rcases hf : (buildGraph doc (removableBlocks doc)).find? (fun p => p.1 == A)
        with _ | p
      · rw [hf] at hB
        simp at hB
      · have hmem := List.mem_of_find?_eq_some hf
        have hpa : p.1 = A := by simpa using List.find?_some hf
        exact hpa ▸ List.mem_map.mpr ⟨p, hmem, rfl⟩
    have hA2 : stf.visited A = some 2 := hdonef A hAkeys
    have hAord : A ∈ stf.order := hinvf.2.1 A hA2
    obtain ⟨l1, l2, hsplit⟩ := List.append_of_mem hAord
    have hBl1 : B ∈ l1 := hinvf.2.2.2.2.2 l1 A l2 hsplit B hB
    refine ⟨l2.reverse, l1.reverse, ?_, by simpa using hBl1⟩
    rw [horder, hsplit]
    simp
  · intro n hres
    have hnrem : n ∉ removableBlocks doc := by
      intro hmem
      have := (List.mem_filter.mp hmem).2
      simp [hres] at this
    refine ⟨hnrem, ?_⟩
    intro hmem
    rw [horder] at hmem
    have h1 : n ∈ stf.order := by simpa using hmem
    have h2 := hinvf.2.2.1 n h1
    rw [hkeys] at h2
    exact hnrem h2

/-- Witness for C2 at the concrete two-block document (definition "A"
contains an INSERT of "B"). -/
theorem purge_order_safe_witness :
    precedes (purgeOrder FxDocPurge) "A" "B" ∧ "*Model_Space" ∉ purgeOrder FxDocPurge :=
  ⟨(purge_order_safe FxDocPurge FxRank (by decide)).1 "A" "B" (by decide),
   ((purge_order_safe FxDocPurge FxRank (by decide)).2 "*Model_Space" (by decide)).2⟩

theorem foldl_deleteBlock_fields (order : List String) :
    ∀ d : Document, (order.foldl deleteBlock d).msp = d.msp ∧
      (order.foldl deleteBlock d).layers = d.layers ∧
      (order.foldl deleteBlock d).psp = d.psp := by
  induction order with
  | nil => intro d; exact ⟨rfl, rfl, rfl⟩
  | cons n rest ih =>
    intro d
    simp only [List.foldl_cons]
    have hstep : (deleteBlock d n).msp = d.msp ∧ (deleteBlock d n).layers = d.layers ∧
        (deleteBlock d n).psp = d.psp := by
      unfold deleteBlock
      by_cases h : blockReferenced d n
      · rw [if_pos h]
        exact ⟨rfl, rfl, rfl⟩
      · rw [if_neg h]
        exact ⟨rfl, rfl, rfl⟩
    obtain ⟨h1, h2, h3⟩ := ih (deleteBlock d n)
    exact ⟨h1.trans hstep.1, h2.trans hstep.2.1, h3.trans hstep.2.2⟩

theorem purge_blocks_msp (d : Document) : (purge_blocks d).msp = d.msp :=
  (foldl_deleteBlock_fields (purgeOrder d) d).1

theorem purge_blocks_layers (d : Document) : (purge_blocks d).layers = d.layers :=
  (foldl_deleteBlock_fields (purgeOrder d) d).2.1

theorem purge_blocks_noop (d : Document) (h : removableBlocks d = []) :
    purge_blocks d = d := by
  have horder : purgeOrder d = [] := by
    unfold purgeOrder getDeletionOrder
    rw [h]
    rfl
  unfold purge_blocks
  rw [horder]
  rfl

theorem explode_drawing_noop (blocks : List Block) (msp : List Entity)
    (h : ∀ e ∈ msp, isInsert e = false) : explode_drawing blocks msp = msp := by
  have hfil : msp.filter isInsert = [] :=
    List.filter_eq_nil_iff.mpr (fun a ha hin => by simp [h a ha] at hin)
  unfold explode_drawing explode_drawing_full
  rw [explodeAux_noop blocks 20 msp 0 hfil]

/-- On the error outcome of step 5 the stamp is untouched; on the ok outcome
it has been through exactly one `stampPrep`. -/
theorem processAfterForce_stamp (rules : List (String × LayerRule))
    (opts : ProcessingOptions) (s : Document) (forced : Except Unit Document) :
    (processAfterForce rules opts (some s) forced).2 = some s ∨
    (processAfterForce rules opts (some s) forced).2 = some (stampPrep s) := by
  cases forced with
  | error u => exact Or.inl rfl
  | ok d => exact Or.inr rfl

/-- Either outcome of a full run leaves the stamp alone or stamp-prepped. -/
theorem process_dxf_full_stamp (t : Document) (rules : List (String × LayerRule))
    (opts : ProcessingOptions) (s : Document) :
    (process_dxf_full t rules opts (some s)).2 = some s ∨
    (process_dxf_full t rules opts (some s)).2 = some (stampPrep s) := by
  unfold process_dxf_full
  exact processAfterForce_stamp rules opts s _

/-- C8 (amended).  A fully built stamp is left unchanged by a normalization
run: provided the stamp's modelspace holds no INSERT (it was fully
flattened within the pass cap) and no removable block definitions remain in
it (a re-purge deletes nothing), `process_dxf` returns the stamp document
exactly as it received it — also when the run aborts in step 5, which
happens before the merge touches the stamp. -/
theorem process_dxf_stamp_unchanged (t : Document) (rules : List (String × LayerRule))
    (opts : ProcessingOptions) (s : Document)
    (h1 : ∀ e ∈ s.msp, isInsert e = false)
    (h2 : removableBlocks s = []) :
    (process_dxf_full t rules opts (some s)).2 = some s := by
  have hsrc : stampPrep s = s := by
    unfold stampPrep
    rw [explode_drawing_noop s.blocks s.msp h1]
    exact purge_blocks_noop s h2
  rcases process_dxf_full_stamp t rules opts s with h | h
  · exact h
  · rw [h, hsrc]

/-- Witness for the amended C8 at a flat stamp. -/
theorem process_dxf_stamp_unchanged_witness :
    (process_dxf_full FxDocC3 [] FxOptsOff (some FxStampFlat)).2 = some FxStampFlat :=
  process_dxf_stamp_unchanged FxDocC3 [] FxOptsOff FxStampFlat (by decide) (by decide)

/-- C8 (counterexample).  A stamp whose block graph is a 3-cycle is still
changed by a run even after it was built (flattened and purged) by the
endpoint's own preparation: the leftover INSERT in its modelspace is pushed
around the cycle by the 20 extra explosion passes `apply_logos` runs, so the
stamp after `process_dxf` differs from the stamp before. -/
theorem process_dxf_stamp_changed_counterexample :
    (process_dxf_full FxDocC3 [] FxOptsOff (some (stampPrep FxStampCyclic))).2
      ≠ some (stampPrep FxStampCyclic) := by
  decide

theorem setBylayerEnt_layer (e : Entity) : (setBylayerEnt e).layer = e.layer := rfl

theorem setBylayerSub_idem (v : VEnt) : setBylayerSub (setBylayerSub v) = setBylayerSub v := rfl

theorem setBylayerEnt_idem (e : Entity) : setBylayerEnt (setBylayerEnt e) = setBylayerEnt e := by
  unfold setBylayerEnt
  by_cases h1 : e.dxftype == "INSERT" <;>
    simp [h1, List.map_map, Function.comp, setBylayerSub_idem]

theorem setBylayerEnt_dxftype (e : Entity) : (setBylayerEnt e).dxftype = e.dxftype := rfl

theorem map_setBylayerEnt_idem (l : List Entity) :
    (l.map setBylayerEnt).map setBylayerEnt = l.map setBylayerEnt := by
  rw [List.map_map]
  exact List.map_congr_left fun e _ => setBylayerEnt_idem e

theorem updateFirstLayer_names (p : Layer → Bool) (f : Layer → Layer)
    (hf : ∀ x, (f x).name = x.name) :
    ∀ l : List Layer, (updateFirstLayer p f l).map (·.name) = l.map (·.name) := by
  intro l
  induction l with
  | nil => rfl
  | cons L rest ih =>
    unfold updateFirstLayer
    by_cases h : p L
    · rw [if_pos h]
      simp [hf L]
    · rw [if_neg h]
      simp [ih]

theorem ensure_layer_names (d : Document) (n : String) (c lw : Int) (lt : String) :
    ∀ m ∈ (ensure_layer_properties d n c lw lt).layers.map (·.name),
      m ∈ d.layers.map (·.name) ∨ m = n := by
  intro m hm
  unfold ensure_layer_properties at hm
  by_cases hadd : d.layers.any (fun L => upperEq L.name n)
  · rw [if_pos hadd] at hm
    rw [updateFirstLayer_names _ _ ?hf] at hm
    case hf =>
      intro x
      by_cases hg : linetypeGiven lt <;> by_cases hc1 : ciMemStr lt d.linetypes <;>
        by_cases hc2 : ciMemStr "Continuous" d.linetypes <;> simp [hg, hc1, hc2]
    exact Or.inl hm
  · rw [if_neg hadd] at hm
    rw [updateFirstLayer_names _ _ ?hf2] at hm
    case hf2 =>
      intro x
      by_cases hg : linetypeGiven lt <;> by_cases hc1 : ciMemStr lt d.linetypes <;>
        by_cases hc2 : ciMemStr "Continuous" d.linetypes <;> simp [hg, hc1, hc2]
    simp only [List.map_append, List.mem_append] at hm
    rcases hm with h1 | h2
    · exact Or.inl h1
    · simp at h2
      exact Or.inr h2

theorem ensure_layer_msp (d : Document) (n : String) (c lw : Int) (lt : String) :
    (ensure_layer_properties d n c lw lt).msp = d.msp := by
  unfold ensure_layer_properties
  by_cases hadd : d.layers.any (fun L => upperEq L.name n)
  · rw [if_pos hadd]
  · rw [if_neg hadd]

theorem applyRuleStep_msp (d : Document) (kv : String × LayerRule) :
    (applyRuleStep d kv).msp
      = change_layer_entities d.msp kv.1 kv.2.layer_destino := by
  show change_layer_entities (ensure_layer_properties d kv.2.layer_destino kv.2.cor
      kv.2.espessura_linha kv.2.tipo_linha).msp kv.1 kv.2.layer_destino
    = change_layer_entities d.msp kv.1 kv.2.layer_destino
  rw [ensure_layer_msp d kv.2.layer_destino kv.2.cor kv.2.espessura_linha kv.2.tipo_linha]

theorem applyRuleStep_layer_names (d : Document) (kv : String × LayerRule) :
    ∀ m ∈ (applyRuleStep d kv).layers.map (·.name),
      m ∈ d.layers.map (·.name) ∨ m = kv.2.layer_destino := by
  intro m hm
  unfold applyRuleStep at hm
  exact ensure_layer_names d _ _ _ _ m hm

theorem loop_layer_names (relevant : List (String × LayerRule)) :
    ∀ d : Document, ∀ m ∈ (relevant.foldl applyRuleStep d).layers.map (·.name),
      m ∈ d.layers.map (·.name) ∨ m ∈ relevant.map (·.2.layer_destino) := by
  induction relevant with
  | nil => intro d m hm; exact Or.inl hm
  | cons kv rest ih =>
    intro d m hm
    simp only [List.foldl_cons] at hm
    rcases ih (applyRuleStep d kv) m hm with h1 | h2
    · rcases applyRuleStep_layer_names d kv m h1 with h3 | h4
      · exact Or.inl h3
      · exact Or.inr (by simp [h4])
    · exact Or.inr (List.mem_map.mpr (by
        rcases List.mem_map.mp h2 with ⟨r, hr, hre⟩
        exact ⟨r, List.mem_cons_of_mem _ hr, hre⟩))

theorem change_layer_provenance (msp : List Entity) (old new : String) :
    ∀ e ∈ change_layer_entities msp old new,
      e.layer = new ∨ (e.layer ≠ old ∧ e.layer ∈ msp.map (·.layer)) := by
  intro e he
  unfold change_layer_entities at he
  rcases List.mem_map.mp he with ⟨e0, he0, rfl⟩
  by_cases h : e0.layer == old
  · rw [if_pos h]
    exact Or.inl rfl
  · rw [if_neg h]
    refine Or.inr ⟨by simpa using h, List.mem_map.mpr ⟨e0, he0, rfl⟩⟩

theorem loop_msp_layer_provenance (relevant : List (String × LayerRule)) :
    ∀ d : Document, ∀ e ∈ (relevant.foldl applyRuleStep d).msp,
      e.layer ∈ d.msp.map (·.layer) ∨ e.layer ∈ relevant.map (·.2.layer_destino) := by
  induction relevant with
  | nil => intro d e he; exact Or.inl (List.mem_map.mpr ⟨e, he, rfl⟩)
  | cons kv rest ih =>
    intro d e he
    simp only [List.foldl_cons] at he
    rcases ih (applyRuleStep d kv) e he with h1 | h2
    · rw [applyRuleStep_msp] at h1
      rcases List.mem_map.mp h1 with ⟨e1, he1, hlay⟩
      rcases change_layer_provenance d.msp kv.1 kv.2.layer_destino e1 he1 with h3 | ⟨_, h4⟩
      · exact Or.inr (by simp [← hlay, h3])
      · exact Or.inl (hlay ▸ h4)
    · exact Or.inr (List.mem_map.mpr (by
        rcases List.mem_map.mp h2 with ⟨r, hr, hre⟩
        exact ⟨r, List.mem_cons_of_mem _ hr, hre⟩))

theorem loop_sources_empty (rules : List (String × LayerRule))
    (hnc : ∀ kv ∈ rules, ∀ kv2 ∈ rules, kv.2.layer_destino ≠ kv2.1) :
    ∀ (relevant : List (String × LayerRule)) (d : Document),
      (∀ kv ∈ relevant, kv ∈ rules) →
      ∀ kv ∈ relevant, ∀ e ∈ (relevant.foldl applyRuleStep d).msp, e.layer ≠ kv.1 := by
  intro relevant
  induction relevant with
  | nil => intro d _ kv hkv; simp at hkv
  | cons kv0 rest ih =>
    intro d hsub kv hkv e he
    simp only [List.foldl_cons] at he
    rcases List.mem_cons.mp hkv with rfl | hkvr
    · rcases loop_msp_layer_provenance rest (applyRuleStep d kv) e he with h1 | h2
      · rw [applyRuleStep_msp] at h1
        rcases List.mem_map.mp h1 with ⟨e1, he1, hlay⟩
        rcases change_layer_provenance d.msp kv.1 kv.2.layer_destino e1 he1
          with h3 | ⟨h4, _⟩
        · rw [← hlay, h3]
          exact hnc kv (hsub kv (by simp)) kv (hsub kv (by simp))
        · rw [← hlay]
          exact h4
      · rcases List.mem_map.mp h2 with ⟨r, hr, hlay⟩
        rw [← hlay]
        exact hnc r (hsub r (List.mem_cons_of_mem _ hr)) kv (hsub kv (by simp))
    · exact ih (applyRuleStep d kv0) (fun x hx => hsub x (List.mem_cons_of_mem _ hx))
        kv hkvr e he

theorem change_layer_entities_id (msp : List Entity) (old new : String)
    (h : ∀ e ∈ msp, e.layer ≠ old) : change_layer_entities msp old new = msp := by
  unfold change_layer_entities
  induction msp with
  | nil => rfl
  | cons e rest ih =>
    simp only [List.map_cons]
    rw [if_neg (by simpa using h e (by simp)), ih (fun x hx => h x (by simp [hx]))]

theorem loop_msp_id (relevant : List (String × LayerRule)) :
    ∀ d : Document, (∀ kv ∈ relevant, ∀ e ∈ d.msp, e.layer ≠ kv.1) →
      (relevant.foldl applyRuleStep d).msp = d.msp := by
  induction relevant with
  | nil => intro d _; rfl
  | cons kv rest ih =>
    intro d h
    simp only [List.foldl_cons]
    have hstep : (applyRuleStep d kv).msp = d.msp := by
      rw [applyRuleStep_msp]
      exact change_layer_entities_id d.msp kv.1 kv.2.layer_destino
        (fun e he => h kv (by simp) e he)
    rw [ih (applyRuleStep d kv) (by rw [hstep]; intro r hr e he; exact h r (by simp [hr]) e he),
      hstep]

theorem ensure_layer_psp_blocks (d : Document) (n : String) (c lw : Int) (lt : String) :
    (ensure_layer_properties d n c lw lt).psp = d.psp ∧
    (ensure_layer_properties d n c lw lt).blocks = d.blocks := by
  unfold ensure_layer_properties
  by_cases hadd : d.layers.any (fun L => upperEq L.name n)
  · rw [if_pos hadd]
    exact ⟨rfl, rfl⟩
  · rw [if_neg hadd]
    exact ⟨rfl, rfl⟩

theorem applyRuleStep_psp (d : Document) (kv : String × LayerRule) :
    (applyRuleStep d kv).psp = d.psp := by
  show (ensure_layer_properties d kv.2.layer_destino kv.2.cor kv.2.espessura_linha
    kv.2.tipo_linha).psp = d.psp
  exact (ensure_layer_psp_blocks d _ _ _ _).1

theorem applyRuleStep_blocks (d : Document) (kv : String × LayerRule) :
    (applyRuleStep d kv).blocks = d.blocks := by
  show (ensure_layer_properties d kv.2.layer_destino kv.2.cor kv.2.espessura_linha
    kv.2.tipo_linha).blocks = d.blocks
  exact (ensure_layer_psp_blocks d _ _ _ _).2

theorem loop_psp_blocks (relevant : List (String × LayerRule)) :
    ∀ d : Document, (relevant.foldl applyRuleStep d).psp = d.psp ∧
      (relevant.foldl applyRuleStep d).blocks = d.blocks := by
  induction relevant with
  | nil => intro d; exact ⟨rfl, rfl⟩
  | cons kv rest ih =>
    intro d
    simp only [List.foldl_cons]
    obtain ⟨h1, h2⟩ := ih (applyRuleStep d kv)
    exact ⟨h1.trans (applyRuleStep_psp d kv), h2.trans (applyRuleStep_blocks d kv)⟩

theorem purge_blocks_psp (d : Document) : (purge_blocks d).psp = d.psp :=
  (foldl_deleteBlock_fields (purgeOrder d) d).2.2

theorem foldl_deleteBlock_blocks_sub (order : List String) :
    ∀ d : Document, ∀ b ∈ (order.foldl deleteBlock d).blocks, b ∈ d.blocks := by
  induction order with
  | nil => intro d b hb; exact hb
  | cons n rest ih =>
    intro d b hb
    simp only [List.foldl_cons] at hb
    have h1 := ih (deleteBlock d n) b hb
    unfold deleteBlock at h1
    by_cases h : blockReferenced d n
    · rw [if_pos h] at h1
      exact h1
    · rw [if_neg h] at h1
      exact List.mem_of_mem_filter h1

theorem processAfterForce_none (rules : List (String × LayerRule)) (opts : ProcessingOptions)
    (hrc : opts.manter_nuvem_revisao = false) (forced : Except Unit Document) :
    (processAfterForce rules opts none forced).1 =
      match forced with
      | Except.error u => Except.error u
      | Except.ok f => Except.ok (remove_unused_layers f) := by
  cases forced with
  | error u => rfl
  | ok f =>
    show Except.ok { remove_unused_layers f with
        msp := revcloudStep rules opts (remove_unused_layers f).msp }
      = Except.ok (remove_unused_layers f)
    rw [show revcloudStep rules opts (remove_unused_layers f).msp
      = (remove_unused_layers f).msp from by simp [revcloudStep, hrc]]

theorem process_dxf_none_eq (doc : Document) (rules : List (String × LayerRule))
    (opts : ProcessingOptions) (hrc : opts.manter_nuvem_revisao = false) :
    process_dxf doc rules opts none =
      match force_all_bylayer ((rules.filter (fun kv =>
          ((remove_unused_layers (purge_blocks
            { doc with msp := explode_drawing doc.blocks doc.msp })).layers.map
              (·.name)).contains kv.1)).foldl applyRuleStep
        (remove_unused_layers (purge_blocks
          { doc with msp := explode_drawing doc.blocks doc.msp }))) with
      | Except.error u => Except.error u
      | Except.ok f => Except.ok (remove_unused_layers f) := by
  unfold process_dxf process_dxf_full
  exact processAfterForce_none rules opts hrc _

theorem reclaim_names_sub (d : Document) :
    ∀ m ∈ (remove_unused_layers d).layers.map (·.name), m ∈ d.layers.map (·.name) := by
  intro m hm
  unfold remove_unused_layers at hm
  rcases List.mem_map.mp hm with ⟨L, hL, rfl⟩
  exact List.mem_map.mpr ⟨L, List.mem_of_mem_filter hL, rfl⟩

theorem run2_msp_id (rules : List (String × LayerRule)) (opts : ProcessingOptions)
    (hrc : opts.manter_nuvem_revisao = false) (doc1 : Document)
    (hni : ∀ e ∈ doc1.msp, isInsert e = false)
    (hid : ∀ kv ∈ rules.filter (fun kv =>
        ((remove_unused_layers (purge_blocks doc1)).layers.map (·.name)).contains kv.1),
      ∀ e ∈ doc1.msp, e.layer ≠ kv.1)
    (hbl : doc1.msp.map setBylayerEnt = doc1.msp)
    (hnp : ∀ e ∈ allEntities doc1, e.dxftype ≠ "POLYLINE") :
    ∃ doc2, process_dxf doc1 rules opts none = Except.ok doc2 ∧ doc2.msp = doc1.msp := by
  rw [process_dxf_none_eq doc1 rules opts hrc]
  have hexp : explode_drawing doc1.blocks doc1.msp = doc1.msp :=
    explode_drawing_noop _ _ hni
  rw [hexp]
  have heta : { doc1 with msp := doc1.msp } = doc1 := rfl
  rw [heta]
  have hmsp3 : (remove_unused_layers (purge_blocks doc1)).msp = doc1.msp := by
    show (purge_blocks doc1).msp = doc1.msp
    exact purge_blocks_msp doc1
  have hloop : ((rules.filter (fun kv =>
      ((remove_unused_layers (purge_blocks doc1)).layers.map (·.name)).contains kv.1)).foldl
        applyRuleStep (remove_unused_layers (purge_blocks doc1))).msp = doc1.msp := by
    rw [loop_msp_id _ _ ?hsrc]
    · exact hmsp3
    case hsrc =>
      intro kv hkv e he
      rw [hmsp3] at he
      exact hid kv hkv e he
  have hnpL : ∀ e ∈ allEntities ((rules.filter (fun kv =>
      ((remove_unused_layers (purge_blocks doc1)).layers.map (·.name)).contains kv.1)).foldl
        applyRuleStep (remove_unused_layers (purge_blocks doc1))), e.dxftype ≠ "POLYLINE" := by
    obtain ⟨hps, hbk⟩ := loop_psp_blocks (rules.filter (fun kv =>
      ((remove_unused_layers (purge_blocks doc1)).layers.map (·.name)).contains kv.1))
      (remove_unused_layers (purge_blocks doc1))
    intro e he
    simp only [allEntities, List.mem_append] at he
    rcases he with (he | he) | he
    · rw [hloop] at he
      exact hnp e (by simp [allEntities, he])
    · rw [hps] at he
      have he2 : e ∈ (purge_blocks doc1).psp := he
      rw [purge_blocks_psp] at he2
      exact hnp e (by simp [allEntities, he2])
    · rcases List.mem_flatten.mp he with ⟨es, hes, hee⟩
      rcases List.mem_map.mp hes with ⟨b, hbm, rfl⟩
      rw [hbk] at hbm
      have hbm2 : b ∈ (purge_blocks doc1).blocks := hbm
      have hbm3 : b ∈ doc1.blocks :=
        foldl_deleteBlock_blocks_sub (purgeOrder doc1) doc1 b hbm2
      refine hnp e ?_
      have hbmap : b.entities ∈ List.map (fun x => x.entities) doc1.blocks :=
        List.mem_map_of_mem _ hbm3
      simp only [allEntities, List.mem_append]
      exact Or.inr (List.mem_flatten.mpr ⟨b.entities, hbmap, hee⟩)
  rw [force_all_bylayer_ok _ hnpL]
  refine ⟨_, rfl, ?_⟩
  show (forceAllBylayerOk ((rules.filter (fun kv =>
      ((remove_unused_layers (purge_blocks doc1)).layers.map (·.name)).contains kv.1)).foldl
        applyRuleStep (remove_unused_layers (purge_blocks doc1)))).msp = doc1.msp
  show ((rules.filter (fun kv =>
      ((remove_unused_layers (purge_blocks doc1)).layers.map (·.name)).contains kv.1)).foldl
        applyRuleStep (remove_unused_layers (purge_blocks doc1))).msp.map setBylayerEnt
    = doc1.msp
  rw [hloop, hbl]

/-- C9 (amended).  Rule application is idempotent on the modelspace of a
normalized document for non-chained rule tables: when no rule's destination
layer is any rule's source layer, revision-cloud conversion is disabled, no
stamp is applied, the first run completed (producing `doc1`) and left no
INSERT in the modelspace, then the second run completes as well and performs
no entity layer reassignment — the modelspace is unchanged by it. -/
theorem process_dxf_rules_idempotent_msp (doc : Document)
    (rules : List (String × LayerRule)) (opts : ProcessingOptions)
    (hnc : ∀ kv ∈ rules, ∀ kv2 ∈ rules, kv.2.layer_destino ≠ kv2.1)
    (hrc : opts.manter_nuvem_revisao = false) (doc1 : Document)
    (hok : process_dxf doc rules opts none = Except.ok doc1)
    (hni : ∀ e ∈ doc1.msp, isInsert e = false) :
    ∃ doc2, process_dxf doc1 rules opts none = Except.ok doc2 ∧ doc2.msp = doc1.msp := by
  rw [process_dxf_none_eq doc rules opts hrc] at hok
  rcases hf : force_all_bylayer ((rules.filter (fun kv =>
      ((remove_unused_layers (purge_blocks
        { doc with msp := explode_drawing doc.blocks doc.msp })).layers.map
          (·.name)).contains kv.1)).foldl applyRuleStep
    (remove_unused_layers (purge_blocks
      { doc with msp := explode_drawing doc.blocks doc.msp }))) with u | f
  · rw [hf] at hok
    exact absurd hok (by simp)
  · rw [hf] at hok
    have hd1 : remove_unused_layers f = doc1 := by
      injection hok
    obtain ⟨hff, hnpX⟩ := force_all_bylayer_ok_inv _ f hf
    have hmspX : doc1.msp = ((rules.filter (fun kv =>
        ((remove_unused_layers (purge_blocks
          { doc with msp := explode_drawing doc.blocks doc.msp })).layers.map
            (·.name)).contains kv.1)).foldl applyRuleStep
      (remove_unused_layers (purge_blocks
        { doc with msp := explode_drawing doc.blocks doc.msp }))).msp.map setBylayerEnt := by
      rw [← hd1, hff]
      rfl
    have hbl : doc1.msp.map setBylayerEnt = doc1.msp := by
      rw [hmspX]
      exact map_setBylayerEnt_idem _
    have hnp1 : ∀ e ∈ allEntities doc1, e.dxftype ≠ "POLYLINE" := by
      intro e he
      rw [← hd1] at he
      have he2 : e ∈ allEntities f := he
      rw [hff, allEntities_forceOk] at he2
      rcases List.mem_map.mp he2 with ⟨x, hx, rfl⟩
      rw [setBylayerEnt_dxftype]
      exact hnpX x hx
    refine run2_msp_id rules opts hrc doc1 hni ?_ hbl hnp1
    -- no modelspace entity of the normalized document lies on an applicable source
    intro kv hkv e he
    have hkvr : kv ∈ rules := (List.mem_filter.mp hkv).1
    have hcon := (List.mem_filter.mp hkv).2
    have hname1 : kv.1 ∈ ((remove_unused_layers
        (purge_blocks doc1)).layers.map (·.name)) := by
      simpa using hcon
    have hname2 : kv.1 ∈ (purge_blocks doc1).layers.map (·.name) :=
      reclaim_names_sub _ _ hname1
    rw [purge_blocks_layers] at hname2
    rw [← hd1] at hname2
    have hname3 : kv.1 ∈ f.layers.map (·.name) :=
      reclaim_names_sub _ _ hname2
    rw [hff] at hname3
    have hname4 : kv.1 ∈ ((rules.filter (fun kv =>
        ((remove_unused_layers (purge_blocks
          { doc with msp := explode_drawing doc.blocks doc.msp })).layers.map
            (·.name)).contains kv.1)).foldl applyRuleStep
      (remove_unused_layers (purge_blocks
        { doc with msp := explode_drawing doc.blocks doc.msp }))).layers.map (·.name) := hname3
    rcases loop_layer_names _ _ kv.1 hname4 with hsrc | hdst
    · -- the rule was applicable in the first run, whose loop emptied its source
      have hrel1 : kv ∈ rules.filter (fun kv2 =>
          ((remove_unused_layers (purge_blocks
            { doc with msp := explode_drawing doc.blocks doc.msp })).layers.map
              (·.name)).contains kv2.1) :=
        List.mem_filter.mpr ⟨hkvr, by simpa using hsrc⟩
      have hempty := loop_sources_empty rules hnc _
        (remove_unused_layers (purge_blocks
          { doc with msp := explode_drawing doc.blocks doc.msp }))
        (fun x hx => (List.mem_filter.mp hx).1) kv hrel1
      rw [hmspX] at he
      rcases List.mem_map.mp he with ⟨e0, he0, rfl⟩
      rw [setBylayerEnt_layer]
      exact hempty e0 he0
    · -- a source that is also some rule's destination contradicts non-chaining
      rcases List.mem_map.mp hdst with ⟨r, hr, hre⟩
      have hrr : r ∈ rules := (List.mem_filter.mp hr).1
      exact absurd hre (hnc r hrr kv hkvr)

/-- Witness for the amended C9 on the scenario document and rule table. -/
theorem process_dxf_rules_idempotent_msp_witness :
    ∃ doc2, process_dxf FxDocC3N [("A", FxRuleAB)] FxOptsOff none = Except.ok doc2 ∧
      doc2.msp = FxDocC3N.msp :=
  process_dxf_rules_idempotent_msp FxDocC3 [("A", FxRuleAB)] FxOptsOff
    (by decide) rfl FxDocC3N rfl (by decide)

/-- C9 (counterexample).  With the chained rule table `[B→C, A→B]` the claim
fails: the first run moves the "A" entity onto "B" (completing with
`FxDocC9N1`); in the second run the rule `B→C` is applicable again (layer
"B" survived, non-empty) and re-homes that entity to "C", so the second
normalization does reassign an entity's layer and changes the document. -/
theorem process_dxf_rules_not_idempotent :
    process_dxf FxDocC9 FxRulesChained FxOptsOff none = Except.ok FxDocC9N1 ∧
    process_dxf FxDocC9N1 FxRulesChained FxOptsOff none = Except.ok FxDocC9N2 ∧
    FxDocC9N2.msp ≠ FxDocC9N1.msp :=
  ⟨rfl, rfl, by decide⟩

/-- Witness for the amended C7 at a concrete dangling INSERT. -/
theorem explode_failed_insert_deleted_witness :
    FxIns "MISSING" ∉
      (explodePass [⟨"BLK", [FxCircle]⟩] [FxIns "MISSING", FxLine0, FxIns "BLK"]).1 ∧
    ∀ i ∈ [FxIns "MISSING", FxLine0, FxIns "BLK"], isInsert i = true →
      ∀ x ∈ explodeInsert [⟨"BLK", [FxCircle]⟩] i,
        x ∈ (explodePass [⟨"BLK", [FxCircle]⟩] [FxIns "MISSING", FxLine0, FxIns "BLK"]).1 :=
  explode_failed_insert_deleted [⟨"BLK", [FxCircle]⟩]
    [FxIns "MISSING", FxLine0, FxIns "BLK"] (FxIns "MISSING")
    (by decide) (by decide) (by decide) (by decide)
